import Mathlib

/-!
# go-datera: the connection layer of `pkg/dsdk`

A shallow embedding of `pkg/dsdk/connection.go` (the `ApiConnection` type, its
request primitive `do`, `Login`, `doWithAuth`, `makeBaseUrl`, `NewApiConnection`),
of the request paths of `pkg/dsdk/user_data.go` and of the channels of `ForceClean`
in `src/dsdk/root.go`, together with the parts of the Go standard library they lean
on (`path.Join`, `path.Clean`, `strings.Trim`).

Conventions.

* A Go `error` is an `Option GoErr`; `none` is `nil`.
* The HTTP transport (`grequests.DoRegularRequest`) is a function from the number
  of requests already sent to the reply the next request receives.
* Everything that a call can observe or change is threaded explicitly: the
  connection (whose `apikey` is mutable), the `World` (requests put on the wire and
  request trace records written to the debug log) and the response container.
* `do` calls `Login`, which calls `do`; the embedding recurses on a fuel argument
  and returns `none` when the fuel runs out.
* Left out: the `context.Context` field of the connection, the random request id
  and the response record of the debug trace, the latency, and the lines written
  to the error log. None of them is read back by the code.
* Library code is either a parameter (`url.Parse`, the JSON decoding of a response
  body) or written out from its documentation (`path.Join`, `path.Clean`,
  `strings.Trim`, the field `Ok` of a response).
-/

namespace dsdk

/-! ## Package `path` of the Go standard library

Go's `path.Clean` reads the path byte by byte and writes into a buffer; here the same
function is written over whole path name elements: the path is cut at its `/`, the
elements are taken in turn, and the elements written are joined again. -/

/-- Cut a path at every `/`; the pieces are the path name elements (possibly empty). -/
def splitSlash : List Char → List (List Char)
  | [] => [[]]
  | c :: cs =>
    if c = '/' then [] :: splitSlash cs
    else
      match splitSlash cs with
      | [] => [[c]]
      | e :: es => (c :: e) :: es

/-- One turn of the loop of `path.Clean`, taken at a whole path name element `e`.
`out` is the list of elements written so far, the most recent first.
An empty element and a `.` element are skipped; a `..` element removes the last
written element when that one is a real element, is dropped at the root of a rooted
path and is written otherwise; a real element is written. -/
def cleanStep (rooted : Bool) (out : List (List Char)) (e : List Char) : List (List Char) :=
  if e = [] then out
  else if e = ['.'] then out
  else if e = ['.', '.'] then
    match out with
    | [] => if rooted then [] else [e]
    | top :: rest =>
      if top ≠ ['.', '.'] then rest
      else if rooted then out
      else e :: out
  else e :: out

/-- Put `/` between the elements. -/
def joinSlash : List (List Char) → List Char
  | [] => []
  | [e] => e
  | e :: es => e ++ '/' :: joinSlash es

/-- The text written by `path.Clean`: the leading `/` of a rooted path followed by
the written elements, and `.` when nothing was written. -/
def render (rooted : Bool) (out : List (List Char)) : List Char :=
  let s := if rooted then '/' :: joinSlash out.reverse else joinSlash out.reverse
  if s = [] then ['.'] else s

/-- Go `path.Clean`. -/
def Clean (p : List Char) : List Char :=
  if p = [] then ['.']
  else
    let rooted : Bool := p.head? = some '/'
    render rooted ((splitSlash p).foldl (cleanStep rooted) [])

/-- Go `path.Join`: the leading empty elements are ignored, the others are joined
with `/` and the result is cleaned; no element, or only empty ones, gives the empty
string. -/
def Join (elem : List (List Char)) : List Char :=
  match elem.dropWhile (fun e => e = []) with
  | [] => []
  | es => Clean (joinSlash es)

/-- Go `path.Join` on strings. -/
def pathJoin (elem : List String) : String :=
  String.mk (Join (elem.map String.data))

/-- Go `path.Clean` on strings. -/
def pathClean (p : String) : String :=
  String.mk (Clean p.data)

/-! ## Package `strings` -/

/-- Go `strings.Trim(s, cutset)`: `s` without its leading and trailing characters
that occur in `cutset`. -/
def stringsTrim (s cutset : String) : String :=
  String.mk (((s.data.dropWhile (fun c => cutset.data.contains c)).rdropWhile
    (fun c => cutset.data.contains c)))

/-! ## Errors and status codes -/

/-- The error values the connection layer handles. The first three are the values
stored in the `badStatus` table; `lib` is any error made by a library (a transport
failure, a body that does not decode), which is never identical to one of the
three. -/
inductive GoErr where
  | invalidRequest
  | permissionDenied
  | retryRequestAfterLogin
  | lib (msg : String)
  deriving DecidableEq, Repr

def InvalidRequest : Nat := 400

def PermissionDenied : Nat := 401

def RetryRequestAfterLogin : Nat := 9999

/-- The table `badStatus`; a status that is not a key of the map gives `nil`. -/
def badStatus (code : Nat) : Option GoErr :=
  if code = InvalidRequest then some GoErr.invalidRequest
  else if code = PermissionDenied then some GoErr.permissionDenied
  else if code = RetryRequestAfterLogin then some GoErr.retryRequestAfterLogin
  else none

/-! ## Data model -/

/-- The fields of `net/url.URL` the connection uses. -/
structure URL where
  Scheme : String := ""
  Host : String := ""
  Path : String := ""
  deriving DecidableEq, Repr

/-- The fields of the configuration record `udc.UDC` read by `NewApiConnection`. -/
structure UDC where
  MgmtIp : String
  Username : String
  Password : String
  ApiVersion : String
  Tenant : String
  deriving DecidableEq, Repr

structure ApiConnection where
  username : String
  password : String
  apiVersion : String
  tenant : String
  secure : Bool
  baseUrl : URL
  apikey : String := ""
  deriving DecidableEq, Repr

/-- The error payload; it is filled from the body of a response that is not `Ok`
and is only written to the log. -/
structure ErrorResponse where
  Body : String
  deriving DecidableEq, Repr

structure ApiLogin where
  Key : String := ""
  Version : String := ""
  ReqTime : Int := 0
  deriving DecidableEq, Repr

/-- The fields of `grequests.RequestOptions` the connection uses. `Data` is the
form body, `JSON` the JSON payload held as its serialised text (`none` is the nil
payload), `Headers` the header map in the order it is written. -/
structure RequestOptions where
  Data : List (String × String) := []
  JSON : Option String := none
  Headers : List (String × String) := []
  deriving DecidableEq, Repr

/-- A `grequests.Response`: the status code and the body. -/
structure Response where
  StatusCode : Nat := 0
  Body : String := ""
  deriving DecidableEq, Repr

/-- The field `Ok` of a `grequests.Response`: the status is in the 2xx range. -/
def Response.Ok (r : Response) : Bool :=
  decide (200 ≤ r.StatusCode) && decide (r.StatusCode < 300)

/-- What `grequests.DoRegularRequest` hands back for one request: a transport
error or a response. -/
inductive Reply where
  | failure (msg : String)
  | response (r : Response)
  deriving DecidableEq, Repr

/-- The transport: the reply to a request, given how many requests were sent
before it. -/
abbrev Transport := Nat → Reply

/-- A request handed to `grequests.DoRegularRequest`. -/
structure Request where
  Method : String
  Url : URL
  Options : RequestOptions
  deriving DecidableEq, Repr

/-- The request record `do` writes to the debug log before it sends (the random
request id is left out). -/
structure TraceRecord where
  Url : URL
  Method : String
  Payload : String
  Headers : List (String × String)
  deriving DecidableEq, Repr

/-- What a call leaves behind outside the connection: the requests sent, oldest
first, and the request trace records written. -/
structure World where
  sent : List Request := []
  trace : List TraceRecord := []
  deriving DecidableEq, Repr

/-- Method `JSON` of a `grequests.Response` for a container of type `α`: from the
body and the container as it stands, the container afterwards and the error. -/
abbrev Decoder (α : Type) := String → α → α × Option String

/-- What a call of `do` returns and leaves behind. -/
structure Result (α : Type) where
  err : Option GoErr
  conn : ApiConnection
  world : World
  rs : α

/-- `json.Marshal` of the JSON payload of the request options. -/
def jsonMarshal (payload : Option String) : String :=
  match payload with
  | none => "null"
  | some s => s

/-! ## The connection -/

def makeBaseUrl (urlParse : String → Except GoErr URL) (h apiv : String) (secure : Bool) :
    Except GoErr URL :=
  let h := stringsTrim h "/"
  if secure then urlParse ("https://" ++ h ++ ":7718/v" ++ apiv)
  else urlParse ("http://" ++ h ++ ":7717/v" ++ apiv)

def checkResponse (resp : Response) (err : Option GoErr) (retry : Bool) :
    Option ErrorResponse × Option GoErr :=
  match err with
  | some e => (none, some e)
  | none =>
    if resp.StatusCode = PermissionDenied ∧ retry = true then
      (none, badStatus RetryRequestAfterLogin)
    else if resp.Ok = false then
      (some { Body := resp.Body }, badStatus resp.StatusCode)
    else (none, none)

/-- The call `greq.DoRegularRequest(method, gurl.String(), ro)`: the request is
added to the requests sent and the transport gives its reply. -/
def DoRegularRequest (t : Transport) (w : World) (req : Request) :
    (Response × Option GoErr) × World :=
  let w1 := { w with sent := w.sent ++ [req] }
  match t w.sent.length with
  | Reply.failure msg => (({}, some (GoErr.lib msg)), w1)
  | Reply.response r => ((r, none), w1)

mutual

/-- Method `do` of `ApiConnection`. `t` is the transport, `dec` the decoder of the
caller's container `rs`, `decLogin` the decoder of the login container. -/
def do_ (t : Transport) (decLogin : Decoder ApiLogin) (fuel : Nat) {α : Type} (dec : Decoder α)
    (c : ApiConnection) (w : World) (method url : String) (ro : RequestOptions) (rs : α)
    (retry sensitive : Bool) : Option (Result α) :=
  match fuel with
  | 0 => none
  | fuel + 1 =>
    let gurl : URL := { c.baseUrl with Path := pathJoin [c.baseUrl.Path, url] }
    let sdata := if sensitive = true then "********" else jsonMarshal ro.JSON
    let w1 : World := { w with trace := w.trace ++
      [{ Url := gurl, Method := method, Payload := sdata, Headers := ro.Headers }] }
    match DoRegularRequest t w1 { Method := method, Url := gurl, Options := ro } with
    | ((resp, err), w2) =>
      match checkResponse resp err retry with
      | (eresp, err) =>
        if err = badStatus RetryRequestAfterLogin then
          match Login t decLogin fuel c w2 with
          | none => none
          | some (err2, c2, w3) =>
            if err2 ≠ none then some { err := err2, conn := c2, world := w3, rs := rs }
            else do_ t decLogin fuel dec c2 w3 method url ro rs false sensitive
        else if err ≠ none ∨ eresp ≠ none then
          some { err := err, conn := c, world := w2, rs := rs }
        else
          match dec resp.Body rs with
          | (rs1, some msg) => some { err := some (GoErr.lib msg), conn := c, world := w2, rs := rs1 }
          | (rs1, none) => some { err := none, conn := c, world := w2, rs := rs1 }

/-- Method `Login` of `ApiConnection`: the error, the connection afterwards and the
world afterwards. -/
def Login (t : Transport) (decLogin : Decoder ApiLogin) (fuel : Nat) (c : ApiConnection)
    (w : World) : Option (Option GoErr × ApiConnection × World) :=
  match fuel with
  | 0 => none
  | fuel + 1 =>
    let login : ApiLogin := {}
    let ro : RequestOptions := { Data := [("name", "admin"), ("password", "password")] }
    match do_ t decLogin fuel decLogin c w "PUT" "login" ro login false true with
    | none => none
    | some r => some (r.err, { r.conn with apikey := r.rs.Key }, r.world)

end

/-- Method `doWithAuth` of `ApiConnection`; `ro = none` is the nil pointer. -/
def doWithAuth (t : Transport) (decLogin : Decoder ApiLogin) (fuel : Nat) {α : Type}
    (dec : Decoder α) (c : ApiConnection) (w : World) (method url : String)
    (ro : Option RequestOptions) (rs : α) : Option (Result α) :=
  let ro : RequestOptions := match ro with
    | none => {}
    | some o => o
  if c.apikey = "" then
    match Login t decLogin fuel c w with
    | none => none
    | some (some err, c1, w1) => some { err := some err, conn := c1, world := w1, rs := rs }
    | some (none, c1, w1) =>
      let ro1 := { ro with Headers := [("tenant", c1.tenant), ("Auth-Token", c1.apikey)] }
      do_ t decLogin fuel dec c1 w1 method url ro1 rs true false
  else
    let ro1 := { ro with Headers := [("tenant", c.tenant), ("Auth-Token", c.apikey)] }
    do_ t decLogin fuel dec c w method url ro1 rs true false

/-- Function `NewApiConnection`; `none` is the exit of the process through
`log.Fatalf` when the base URL does not parse. -/
def NewApiConnection (urlParse : String → Except GoErr URL) (c : UDC) (secure : Bool) :
    Option ApiConnection :=
  match makeBaseUrl urlParse c.MgmtIp c.ApiVersion secure with
  | Except.error _ => none
  | Except.ok url =>
    some { username := c.Username, password := c.Password, apiVersion := c.ApiVersion,
           tenant := c.Tenant, secure := secure, baseUrl := url }

/-! ## Vocabulary for paths -/

/-- An element that `path.Clean` does not skip: not empty and not `.`. -/
def nontriv (e : List Char) : Bool := decide (e ≠ []) && decide (e ≠ ['.'])

/-- A real path name element: not empty, not `.`, not `..`, without a `/`. -/
def Real (e : List Char) : Prop := e ≠ [] ∧ e ≠ ['.'] ∧ e ≠ ['.', '.'] ∧ '/' ∉ e

/-- A written element: not empty, not `.`, without a `/`. -/
def Written (e : List Char) : Prop := e ≠ [] ∧ e ≠ ['.'] ∧ '/' ∉ e

/-- The shape of what `path.Clean` has written: real elements, the most recent
first, on top of a run of `..` elements, which is empty on a rooted path. -/
def Normal (r : Bool) (S : List (List Char)) : Prop :=
  ∃ R k, S = R ++ List.replicate k ['.', '.'] ∧ (∀ x ∈ R, Real x) ∧ (r = true → k = 0)

/-- A path that starts with `/`. -/
def isRooted (p : List Char) : Bool := decide (p.head? = some '/')

/-- The elements of a path that `path.Clean` does not skip. -/
def elements (p : List Char) : List (List Char) := (splitSlash p).filter nontriv

/-- No path name element of the path is `..`. -/
def NoDotDot (p : List Char) : Prop := ['.', '.'] ∉ splitSlash p

/-- Some path name element of the string is `..`. -/
def hasDotDot (s : String) : Bool := (splitSlash s.data).contains ['.', '.']

/-! ## Vocabulary of the statements -/

/-- The URL `do` sends a request for the path `url` to: the base URL with `url`
joined to its path. -/
def requestUrl (c : ApiConnection) (url : String) : URL :=
  { c.baseUrl with Path := pathJoin [c.baseUrl.Path, url] }

/-- The request options `Login` builds. -/
def loginOptions : RequestOptions :=
  { Data := [("name", "admin"), ("password", "password")] }

/-- The request `Login` sends on the connection `c`. -/
def loginRequest (c : ApiConnection) : Request :=
  { Method := "PUT", Url := requestUrl c "login", Options := loginOptions }

/-- The request `doWithAuth` builds from the caller's arguments when the API key of
the connection is `key`. -/
def authRequest (c : ApiConnection) (key method url : String) (ro : RequestOptions) : Request :=
  { Method := method, Url := requestUrl c url,
    Options := { ro with Headers := [("tenant", c.tenant), ("Auth-Token", key)] } }

/-- The request trace record `do` writes for a request. -/
def traceOf (c : ApiConnection) (method url : String) (ro : RequestOptions) (sensitive : Bool) :
    TraceRecord :=
  { Url := requestUrl c url, Method := method,
    Payload := if sensitive = true then "********" else jsonMarshal ro.JSON,
    Headers := ro.Headers }

/-- The world once `do` has traced and sent one request. -/
def afterSend (c : ApiConnection) (w : World) (method url : String) (ro : RequestOptions)
    (sensitive : Bool) : World :=
  { sent := w.sent ++ [{ Method := method, Url := requestUrl c url, Options := ro }],
    trace := w.trace ++ [traceOf c method url ro sensitive] }

/-- A request that carries an `Auth-Token` header. -/
def hasAuthToken (q : Request) : Bool :=
  (q.Options.Headers.lookup "Auth-Token").isSome

/-- No response of the transport carries the number 9999 as its status (an HTTP
status code has three digits). -/
def NoSentinelStatus (t : Transport) : Prop :=
  ∀ n r, t n = Reply.response r → r.StatusCode ≠ RetryRequestAfterLogin

/-- One pass through the body of `do` in which the branch that logs in again is
not taken: the request is traced and sent, the reply is classified and, when it is
`Ok`, decoded into the container. -/
def once (t : Transport) {α : Type} (dec : Decoder α) (c : ApiConnection) (w : World)
    (method url : String) (ro : RequestOptions) (rs : α) (retry sensitive : Bool) : Result α :=
  let gurl : URL := { c.baseUrl with Path := pathJoin [c.baseUrl.Path, url] }
  let sdata := if sensitive = true then "********" else jsonMarshal ro.JSON
  let w1 : World := { w with trace := w.trace ++
    [{ Url := gurl, Method := method, Payload := sdata, Headers := ro.Headers }] }
  match DoRegularRequest t w1 { Method := method, Url := gurl, Options := ro } with
  | ((resp, err), w2) =>
    match checkResponse resp err retry with
    | (eresp, err) =>
      if err ≠ none ∨ eresp ≠ none then
        { err := err, conn := c, world := w2, rs := rs }
      else
        match dec resp.Body rs with
        | (rs1, some msg) => { err := some (GoErr.lib msg), conn := c, world := w2, rs := rs1 }
        | (rs1, none) => { err := none, conn := c, world := w2, rs := rs1 }

/-- The outcome of `Login` when its request is not answered with the status 9999. -/
def loginOnce (t : Transport) (decLogin : Decoder ApiLogin) (c : ApiConnection) (w : World) :
    Option GoErr × ApiConnection × World :=
  let r := once t decLogin c w "PUT" "login" loginOptions ({} : ApiLogin) false true
  (r.err, { r.conn with apikey := r.rs.Key }, r.world)

/-- Method `do` on a call that may retry, written without recursion: a 401 is
followed by `Login` and, when that succeeds, by one more pass that may not retry. -/
def doFlat (t : Transport) (decLogin : Decoder ApiLogin) {α : Type} (dec : Decoder α)
    (c : ApiConnection) (w : World) (method url : String) (ro : RequestOptions) (rs : α)
    (sensitive : Bool) : Result α :=
  match t w.sent.length with
  | Reply.failure _ => once t dec c w method url ro rs true sensitive
  | Reply.response r =>
    if r.StatusCode = PermissionDenied then
      match loginOnce t decLogin c (afterSend c w method url ro sensitive) with
      | (some err2, c2, w3) => { err := some err2, conn := c2, world := w3, rs := rs }
      | (none, c2, w3) => once t dec c2 w3 method url ro rs false sensitive
    else once t dec c w method url ro rs true sensitive

/-- Method `doWithAuth` written without recursion. -/
def authFlat (t : Transport) (decLogin : Decoder ApiLogin) {α : Type} (dec : Decoder α)
    (c : ApiConnection) (w : World) (method url : String) (ro : Option RequestOptions)
    (rs : α) : Result α :=
  let ro : RequestOptions := match ro with
    | none => {}
    | some o => o
  if c.apikey = "" then
    match loginOnce t decLogin c w with
    | (some err, c1, w1) => { err := some err, conn := c1, world := w1, rs := rs }
    | (none, c1, w1) =>
      doFlat t decLogin dec c1 w1 method url
        { ro with Headers := [("tenant", c1.tenant), ("Auth-Token", c1.apikey)] } rs false
  else
    doFlat t decLogin dec c w method url
      { ro with Headers := [("tenant", c.tenant), ("Auth-Token", c.apikey)] } rs false

/-! ## Sample inputs -/

/-- A connection that holds the API key `k0`. -/
def sampleConn : ApiConnection :=
  { username := "alice", password := "s3cret", apiVersion := "2.1", tenant := "/root",
    secure := false, baseUrl := { Scheme := "http", Host := "10.0.0.1:7717", Path := "/v2.1" },
    apikey := "k0" }

/-- The JSON decoder of the login container on three bodies: the object with the
key `k1`, the empty object, and anything else (which is taken not to be JSON). -/
def sampleLoginJSON : Decoder ApiLogin := fun body l =>
  if body = "\x7b\"key\":\"k1\"\x7d" then ({ l with Key := "k1" }, none)
  else if body = "\x7b\x7d" then (l, none)
  else (l, some "invalid character looking for beginning of value")

/-- A decoder that stores the body in the container. -/
def bodyAsText : Decoder String := fun body _ => (body, none)

/-- A transport whose first and third replies are 401 and whose second reply is a
200 that carries the key `k1`. -/
def twice401 : Transport := fun n =>
  match n with
  | 0 => Reply.response { StatusCode := 401, Body := "expired" }
  | 1 => Reply.response { StatusCode := 200, Body := "\x7b\"key\":\"k1\"\x7d" }
  | _ => Reply.response { StatusCode := 401, Body := "expired" }

/-- A transport whose first reply is 401, whose second reply is a 200 that carries
the key `k1` and whose later replies are a 200 with the body `payload`. -/
def expiredOnce : Transport := fun n =>
  match n with
  | 0 => Reply.response { StatusCode := 401, Body := "expired" }
  | 1 => Reply.response { StatusCode := 200, Body := "\x7b\"key\":\"k1\"\x7d" }
  | _ => Reply.response { StatusCode := 200, Body := "payload" }

/-- A transport that answers every request with a 500. -/
def serverError : Transport := fun _ =>
  Reply.response { StatusCode := 500, Body := "\x7b\"name\":\"InternalError\"\x7d" }

/-- A connection that holds no API key yet. -/
def freshConn : ApiConnection := { sampleConn with apikey := "" }

/-- A transport that answers every request with a 200 whose body is the empty JSON
object. -/
def emptyObject : Transport := fun _ => Reply.response { StatusCode := 200, Body := "\x7b\x7d" }

/-- A transport that answers every request with a 401. -/
def alwaysDenied : Transport := fun _ =>
  Reply.response { StatusCode := 401, Body := "\x7b\"name\":\"AuthFailedError\"\x7d" }

/-- A transport that answers every request with a 200 that carries the key `k1`. -/
def grantsK1 : Transport := fun _ =>
  Reply.response { StatusCode := 200, Body := "\x7b\"key\":\"k1\"\x7d" }

/-- A transport on which every request fails. -/
def unreachable : Transport := fun _ => Reply.failure "connection refused"

/-- A configuration with the credentials `alice` and `s3cret`. -/
def sampleConfig : UDC :=
  { MgmtIp := "10.0.0.1", Username := "alice", Password := "s3cret", ApiVersion := "2.1",
    Tenant := "/root" }

/-- The parse of one URL text; any other text is taken not to parse. -/
def sampleParse : String → Except GoErr URL := fun s =>
  if s = "http://10.0.0.1:7717/v2.1" then
    Except.ok { Scheme := "http", Host := "10.0.0.1:7717", Path := "/v2.1" }
  else Except.error (GoErr.lib "parse error")

/-! ## User data (`pkg/dsdk/user_data.go`) -/

/-- A JSON object as the connection hands it back (`map[string]interface{}`), held
as its fields in order with the values as text. -/
abbrev JsonMap := List (String × String)

structure UserData where
  AppInstanceId : String := ""
  Data : JsonMap := []
  deriving DecidableEq, Repr

structure UserDatas where
  Path : String
  deriving DecidableEq, Repr

def newUserDatas (path : String) : UserDatas :=
  { Path := pathJoin [path, "user_data"] }

structure UserDataUpdateRequest where
  AppInstanceId : String
  Data : JsonMap := []
  deriving DecidableEq, Repr

structure UserDataGetRequest where
  AppInstanceId : String
  deriving DecidableEq, Repr

/-- The error payload `ApiErrorResponse` of the pooled connection, whose declaration
is not among the sources; only whether it is nil is looked at. -/
structure ApiErrorResponse where
  Message : String := ""
  deriving DecidableEq, Repr

/-- The field `JSON` of the request options of a user data call: the request record
itself. -/
inductive UserDataJSON where
  | update (ud : UserDataUpdateRequest)
  | get (ud : UserDataGetRequest)
  deriving DecidableEq, Repr

/-- A call on the pooled connection `GetConn(ctxt)`: the method, the request path
and the JSON payload. -/
structure ConnCall where
  Method : String
  Path : String
  JSON : UserDataJSON
  deriving DecidableEq, Repr

/-- What a call on the pooled connection hands back: the `Data` of the envelope, the
error payload and the error. -/
structure ConnReply where
  Data : JsonMap := []
  apierr : Option ApiErrorResponse := none
  err : Option GoErr := none
  deriving DecidableEq, Repr

/-- What a user data method returns, together with the calls it made on the
connection. -/
structure UserDataResult where
  calls : List ConnCall
  resp : Option UserData
  apierr : Option ApiErrorResponse
  err : Option GoErr
  deriving DecidableEq, Repr

/-- Method `Update` of `UserDatas`. The pooled connection `conn` and `FillStruct`
are parameters: their code is not among the sources. -/
def UserDatas.Update (conn : ConnCall → ConnReply)
    (FillStruct : JsonMap → UserData → UserData × Option GoErr)
    (e : UserDatas) (ud : UserDataUpdateRequest) : UserDataResult :=
  let call : ConnCall :=
    { Method := "PUT", Path := pathJoin ["app_instances", ud.AppInstanceId, e.Path],
      JSON := UserDataJSON.update ud }
  let reply := conn call
  if reply.apierr ≠ none then
    { calls := [call], resp := none, apierr := reply.apierr, err := reply.err }
  else if reply.err ≠ none then
    { calls := [call], resp := none, apierr := none, err := reply.err }
  else
    match FillStruct reply.Data { AppInstanceId := ud.AppInstanceId } with
    | (_, some err) => { calls := [call], resp := none, apierr := none, err := some err }
    | (resp, none) => { calls := [call], resp := some resp, apierr := none, err := none }

/-- Method `Get` of `UserDatas`. -/
def UserDatas.Get (conn : ConnCall → ConnReply)
    (FillStruct : JsonMap → UserData → UserData × Option GoErr)
    (e : UserDatas) (ud : UserDataGetRequest) : UserDataResult :=
  let call : ConnCall :=
    { Method := "GET", Path := pathJoin ["app_instances", e.Path, ud.AppInstanceId],
      JSON := UserDataJSON.get ud }
  let reply := conn call
  if reply.apierr ≠ none ∨ reply.err ≠ none then
    { calls := [call], resp := none, apierr := reply.apierr, err := reply.err }
  else
    match FillStruct reply.Data {} with
    | (_, some err) => { calls := [call], resp := none, apierr := none, err := some err }
    | (resp, none) => { calls := [call], resp := some resp, apierr := none, err := none }

/-! ## `ForceClean` (`src/dsdk/root.go`) -/

/-- What `ForceClean` has done so far. A channel is the number of channels made
before it; `tasks` are the calls `go f(ch, item)` in the order they are started, and
`received` the channels of the receive operations `<-ch` in the order the last loop
issues them. The body of `f` runs beside `ForceClean` and is not part of the
embedding; it ends with the one send `lc <- 1` on its channel. -/
structure CleanState (ε : Type) where
  dones : List Nat := []
  chi : Nat := 0
  nextChan : Nat := 0
  tasks : List (Nat × ε) := []
  received : List Nat := []

/-- The loop `for i := 0; i < numItems; i++ { dones = append(dones, make(chan int)) }`. -/
def makeChannels {ε : Type} (st : CleanState ε) : Nat → CleanState ε
  | 0 => st
  | n + 1 =>
    makeChannels { st with dones := st.dones ++ [st.nextChan], nextChan := st.nextChan + 1 } n

/-- The loop `for _, item := range items { go f(dones[chi], item); chi += 1 }`;
`none` is the run-time panic of an index out of range. -/
def startTasks {ε : Type} (st : CleanState ε) : List ε → Option (CleanState ε)
  | [] => some st
  | item :: rest =>
    match st.dones[st.chi]? with
    | none => none
    | some ch => startTasks { st with tasks := st.tasks ++ [(ch, item)], chi := st.chi + 1 } rest

/-- The body of the loop over the endpoint names. `listEp` is the call
`c.GetEp(epStr).List(ctxt)`, whose code is not among the sources; its error is
dropped. -/
def cleanEndpoint {ε : Type} (listEp : String → List ε × Option GoErr) (st : CleanState ε)
    (epStr : String) : Option (CleanState ε) :=
  let items := (listEp epStr).1
  let numItems := items.length
  startTasks (makeChannels st numItems) items

/-- The loop over the endpoint names. -/
def cleanEndpoints {ε : Type} (listEp : String → List ε × Option GoErr) (st : CleanState ε) :
    List String → Option (CleanState ε)
  | [] => some st
  | epStr :: rest =>
    match cleanEndpoint listEp st epStr with
    | none => none
    | some st1 => cleanEndpoints listEp st1 rest

/-- The loop `for _, ch := range dones { <-ch }`. -/
def waitAll {ε : Type} (st : CleanState ε) : CleanState ε :=
  st.dones.foldl (fun s ch => { s with received := s.received ++ [ch] }) st

/-- Method `ForceClean` of `SDK`, as far as its channels go: the channels made, the
tasks started and the receive operations issued. -/
def ForceClean {ε : Type} (listEp : String → List ε × Option GoErr) : Option (CleanState ε) :=
  match cleanEndpoints listEp {}
      ["app_instances", "app_templates", "initiators", "initiator_groups"] with
  | none => none
  | some st => some (waitAll st)

/-- The entities listed, in the order `ForceClean` lists them. -/
def listed {ε : Type} (listEp : String → List ε × Option GoErr) : List ε :=
  (listEp "app_instances").1 ++ (listEp "app_templates").1 ++ (listEp "initiators").1 ++
    (listEp "initiator_groups").1

/-- Between two turns of the loop over the endpoint names: the channels are the
numbers below `nextChan`, one per task started, and `chi` is their number. -/
def CleanInv {ε : Type} (st : CleanState ε) : Prop :=
  st.dones = List.range st.nextChan ∧ st.chi = st.dones.length ∧
    st.tasks.map Prod.fst = st.dones ∧ st.received = []

/-! ## The body of `do`, one reply at a time -/

theorem badStatus_sentinel : badStatus RetryRequestAfterLogin = some GoErr.retryRequestAfterLogin := by
  decide

theorem badStatus_ne_sentinel (code : Nat) (h : code ≠ RetryRequestAfterLogin) :
    badStatus code ≠ some GoErr.retryRequestAfterLogin := by
  unfold badStatus
  split_ifs <;> simp

theorem checkResponse_ne_sentinel (resp : Response) (retry : Bool)
    (h2 : resp.StatusCode ≠ RetryRequestAfterLogin)
    (h3 : retry = false ∨ resp.StatusCode ≠ PermissionDenied) :
    (checkResponse resp none retry).2 ≠ some GoErr.retryRequestAfterLogin := by
  unfold checkResponse
  simp only
  split_ifs with h4 h5
  · rcases h3 with h3 | h3
    · simp [h3] at h4
    · exact absurd h4.1 h3
  · exact badStatus_ne_sentinel _ h2
  · simp

/-- When the reply is not the status 9999, and not a 401 on a call that may retry,
`do` is one pass through its body. -/
theorem do_once (t : Transport) (dl : Decoder ApiLogin) (fuel : Nat) {α : Type} (dec : Decoder α)
    (c : ApiConnection) (w : World) (m u : String) (ro : RequestOptions) (rs : α)
    (retry s : Bool)
    (hs : ∀ r, t w.sent.length = Reply.response r →
      r.StatusCode ≠ RetryRequestAfterLogin ∧ (retry = false ∨ r.StatusCode ≠ PermissionDenied)) :
    do_ t dl (fuel + 1) dec c w m u ro rs retry s = some (once t dec c w m u ro rs retry s) := by
  simp only [do_, once, DoRegularRequest, badStatus_sentinel]
  cases ht : t w.sent.length with
  | failure msg => simp [checkResponse]
  | response r =>
    have h := checkResponse_ne_sentinel r retry (hs r ht).1 (hs r ht).2
    simp only
    rcases hc : checkResponse r none retry with ⟨eresp, err⟩
    rw [hc] at h
    simp only at h
    simp only [h, if_false]
    generalize dec r.Body rs = d
    rcases d with ⟨rs1, _ | msg⟩ <;> split_ifs <;> rfl

theorem once_failure (t : Transport) {α : Type} (dec : Decoder α) (c : ApiConnection) (w : World)
    (m u : String) (ro : RequestOptions) (rs : α) (retry s : Bool) (msg : String)
    (ht : t w.sent.length = Reply.failure msg) :
    once t dec c w m u ro rs retry s =
      { err := some (GoErr.lib msg), conn := c, world := afterSend c w m u ro s, rs := rs } := by
  simp [once, DoRegularRequest, ht, checkResponse, afterSend, traceOf, requestUrl]

theorem once_notOk (t : Transport) {α : Type} (dec : Decoder α) (c : ApiConnection) (w : World)
    (m u : String) (ro : RequestOptions) (rs : α) (retry s : Bool) (r : Response)
    (ht : t w.sent.length = Reply.response r) (hok : r.Ok = false)
    (h3 : retry = false ∨ r.StatusCode ≠ PermissionDenied) :
    once t dec c w m u ro rs retry s =
      { err := badStatus r.StatusCode, conn := c, world := afterSend c w m u ro s, rs := rs } := by
  have h4 : ¬ (r.StatusCode = PermissionDenied ∧ retry = true) := by
    rintro ⟨h, h5⟩
    rcases h3 with h3 | h3
    · simp [h3] at h5
    · exact h3 h
  simp [once, DoRegularRequest, ht, checkResponse, afterSend, traceOf, requestUrl, hok, h4]

theorem ok_ne_permissionDenied (r : Response) (hok : r.Ok = true) :
    r.StatusCode ≠ PermissionDenied := by
  intro h
  simp [Response.Ok, h, PermissionDenied] at hok

theorem once_ok (t : Transport) {α : Type} (dec : Decoder α) (c : ApiConnection) (w : World)
    (m u : String) (ro : RequestOptions) (rs : α) (retry s : Bool) (r : Response)
    (ht : t w.sent.length = Reply.response r) (hok : r.Ok = true) :
    once t dec c w m u ro rs retry s =
      { err := (dec r.Body rs).2.map GoErr.lib, conn := c, world := afterSend c w m u ro s,
        rs := (dec r.Body rs).1 } := by
  have h4 : ¬ (r.StatusCode = PermissionDenied ∧ retry = true) :=
    fun h => ok_ne_permissionDenied r hok h.1
  simp only [once, DoRegularRequest, ht, checkResponse, afterSend, traceOf, requestUrl, hok, h4,
    if_false, List.length_append]
  rcases dec r.Body rs with ⟨rs1, _ | msg⟩ <;> simp

theorem once_conn (t : Transport) {α : Type} (dec : Decoder α) (c : ApiConnection) (w : World)
    (m u : String) (ro : RequestOptions) (rs : α) (s : Bool) :
    (once t dec c w m u ro rs false s).conn = c := by
  cases ht : t w.sent.length with
  | failure msg => rw [once_failure t dec c w m u ro rs false s msg ht]
  | response r =>
    cases hok : r.Ok with
    | false => rw [once_notOk t dec c w m u ro rs false s r ht hok (Or.inl rfl)]
    | true => rw [once_ok t dec c w m u ro rs false s r ht hok]

theorem once_world (t : Transport) {α : Type} (dec : Decoder α) (c : ApiConnection) (w : World)
    (m u : String) (ro : RequestOptions) (rs : α) (s : Bool) :
    (once t dec c w m u ro rs false s).world = afterSend c w m u ro s := by
  cases ht : t w.sent.length with
  | failure msg => rw [once_failure t dec c w m u ro rs false s msg ht]
  | response r =>
    cases hok : r.Ok with
    | false => rw [once_notOk t dec c w m u ro rs false s r ht hok (Or.inl rfl)]
    | true => rw [once_ok t dec c w m u ro rs false s r ht hok]

/-! ## `Login`, `do` and `doWithAuth` without recursion -/

theorem Login_once (t : Transport) (dl : Decoder ApiLogin) (fuel : Nat) (c : ApiConnection)
    (w : World)
    (hs : ∀ r, t w.sent.length = Reply.response r → r.StatusCode ≠ RetryRequestAfterLogin) :
    Login t dl (fuel + 2) c w = some (loginOnce t dl c w) := by
  simp only [Login]
  rw [do_once t dl fuel dl c w "PUT" "login" _ _ false true (fun r hr => ⟨hs r hr, Or.inl rfl⟩)]
  rfl

theorem loginOnce_world (t : Transport) (dl : Decoder ApiLogin) (c : ApiConnection) (w : World) :
    (loginOnce t dl c w).2.2 = afterSend c w "PUT" "login" loginOptions true := by
  simp only [loginOnce]
  exact once_world t dl c w "PUT" "login" loginOptions _ true

theorem loginOnce_conn (t : Transport) (dl : Decoder ApiLogin) (c : ApiConnection) (w : World) :
    (loginOnce t dl c w).2.1 = { c with apikey := (loginOnce t dl c w).2.1.apikey } := by
  simp only [loginOnce]
  rw [once_conn t dl c w "PUT" "login" loginOptions _ true]

theorem afterSend_length (c : ApiConnection) (w : World) (m u : String) (ro : RequestOptions)
    (s : Bool) : (afterSend c w m u ro s).sent.length = w.sent.length + 1 := by
  simp [afterSend]

theorem do_relogin (t : Transport) (dl : Decoder ApiLogin) (fuel : Nat) {α : Type}
    (dec : Decoder α) (c : ApiConnection) (w : World) (m u : String) (ro : RequestOptions)
    (rs : α) (s : Bool) (r : Response) (ht : t w.sent.length = Reply.response r)
    (h401 : r.StatusCode = PermissionDenied) :
    do_ t dl (fuel + 1) dec c w m u ro rs true s =
      match Login t dl fuel c (afterSend c w m u ro s) with
      | none => none
      | some (err2, c2, w3) =>
        if err2 ≠ none then some { err := err2, conn := c2, world := w3, rs := rs }
        else do_ t dl fuel dec c2 w3 m u ro rs false s := by
  simp only [do_, DoRegularRequest, ht, h401, if_true, checkResponse, and_self,
    badStatus_sentinel]
  rfl

theorem do_flat (t : Transport) (dl : Decoder ApiLogin) (fuel : Nat) {α : Type} (dec : Decoder α)
    (c : ApiConnection) (w : World) (m u : String) (ro : RequestOptions) (rs : α) (s : Bool)
    (hns : NoSentinelStatus t) :
    do_ t dl (fuel + 3) dec c w m u ro rs true s = some (doFlat t dl dec c w m u ro rs s) := by
  cases ht : t w.sent.length with
  | failure msg =>
    rw [do_once t dl (fuel + 2) dec c w m u ro rs true s (fun r hr => by simp [ht] at hr)]
    simp [doFlat, ht]
  | response r =>
    by_cases h401 : r.StatusCode = PermissionDenied
    · have hl := Login_once t dl fuel c (afterSend c w m u ro s)
        (fun r hr => hns _ r hr)
      rw [do_relogin t dl (fuel + 2) dec c w m u ro rs s r ht h401]
      simp only [doFlat, ht, h401, if_true]
      rw [hl]
      rcases hlo : loginOnce t dl c (afterSend c w m u ro s) with ⟨e, c2, w3⟩
      cases e with
      | some e2 => simp
      | none =>
        simp only [ne_eq, not_true_eq_false, if_false]
        exact do_once t dl (fuel + 1) dec c2 w3 m u ro rs false s
          (fun r hr => ⟨hns _ r hr, Or.inl rfl⟩)
    · rw [do_once t dl (fuel + 2) dec c w m u ro rs true s (fun r' hr => by
        rw [ht] at hr
        cases hr
        exact ⟨hns _ r ht, Or.inr h401⟩)]
      simp [doFlat, ht, h401]

theorem doWithAuth_flat (t : Transport) (dl : Decoder ApiLogin) (fuel : Nat) {α : Type}
    (dec : Decoder α) (c : ApiConnection) (w : World) (m u : String)
    (ro : Option RequestOptions) (rs : α) (hns : NoSentinelStatus t) :
    doWithAuth t dl (fuel + 3) dec c w m u ro rs = some (authFlat t dl dec c w m u ro rs) := by
  simp only [doWithAuth, authFlat]
  split_ifs with hk
  · rw [Login_once t dl (fuel + 1) c w (fun r hr => hns _ r hr)]
    rcases loginOnce t dl c w with ⟨_ | e, c1, w1⟩
    · exact do_flat t dl fuel dec c1 w1 m u _ rs false hns
    · rfl
  · exact do_flat t dl fuel dec c w m u _ rs false hns

/-! ## `Login` by reply, and a successful re-login -/

theorem ok_ne_sentinel (r : Response) (hok : r.Ok = true) :
    r.StatusCode ≠ RetryRequestAfterLogin := by
  intro h
  simp [Response.Ok, h, RetryRequestAfterLogin] at hok

theorem loginOnce_failure (t : Transport) (dl : Decoder ApiLogin) (c : ApiConnection) (w : World)
    (msg : String) (ht : t w.sent.length = Reply.failure msg) :
    loginOnce t dl c w = (some (GoErr.lib msg), { c with apikey := "" },
      afterSend c w "PUT" "login" loginOptions true) := by
  simp only [loginOnce, once_failure t dl c w "PUT" "login" loginOptions _ false true msg ht]

theorem loginOnce_notOk (t : Transport) (dl : Decoder ApiLogin) (c : ApiConnection) (w : World)
    (r : Response) (ht : t w.sent.length = Reply.response r) (hok : r.Ok = false) :
    loginOnce t dl c w = (badStatus r.StatusCode, { c with apikey := "" },
      afterSend c w "PUT" "login" loginOptions true) := by
  simp only [loginOnce,
    once_notOk t dl c w "PUT" "login" loginOptions _ false true r ht hok (Or.inl rfl)]

theorem loginOnce_ok (t : Transport) (dl : Decoder ApiLogin) (c : ApiConnection) (w : World)
    (r : Response) (ht : t w.sent.length = Reply.response r) (hok : r.Ok = true) :
    loginOnce t dl c w = ((dl r.Body {}).2.map GoErr.lib,
      { c with apikey := (dl r.Body {}).1.Key },
      afterSend c w "PUT" "login" loginOptions true) := by
  simp only [loginOnce, once_ok t dl c w "PUT" "login" loginOptions _ false true r ht hok]

/-- A call of `do` that may retry, answered 401 and then, at the login request, with
a 2xx whose body decodes: one more pass with the new key stored in the connection. -/
theorem do_relogin_ok (t : Transport) (dl : Decoder ApiLogin) (fuel : Nat) {α : Type}
    (dec : Decoder α) (c : ApiConnection) (w : World) (m u : String) (ro : RequestOptions)
    (rs : α) (s : Bool) (r1 r2 : Response) (l : ApiLogin)
    (h1 : t w.sent.length = Reply.response r1) (h1s : r1.StatusCode = PermissionDenied)
    (h2 : t (w.sent.length + 1) = Reply.response r2) (h2ok : r2.Ok = true)
    (h2d : dl r2.Body {} = (l, none))
    (h3 : ∀ r, t (w.sent.length + 2) = Reply.response r → r.StatusCode ≠ RetryRequestAfterLogin) :
    do_ t dl (fuel + 3) dec c w m u ro rs true s =
      some (once t dec { c with apikey := l.Key }
        (afterSend c (afterSend c w m u ro s) "PUT" "login" loginOptions true)
        m u ro rs false s) := by
  rw [do_relogin t dl (fuel + 2) dec c w m u _ rs s r1 h1 h1s]
  have h2' : t (afterSend c w m u ro s).sent.length = Reply.response r2 := by
    rw [afterSend_length]; exact h2
  rw [Login_once t dl fuel c _ (fun r hr => by
    rw [h2'] at hr; cases hr; exact ok_ne_sentinel _ h2ok)]
  rw [loginOnce_ok t dl c _ r2 h2' h2ok, h2d]
  simp only [Option.map_none', ne_eq, not_true_eq_false, if_false]
  exact do_once t dl (fuel + 1) dec _ _ m u _ rs false s (fun r hr => by
    rw [afterSend_length, afterSend_length] at hr
    exact ⟨h3 r hr, Or.inl rfl⟩)

theorem doWithAuth_key (t : Transport) (dl : Decoder ApiLogin) (fuel : Nat) {α : Type}
    (dec : Decoder α) (c : ApiConnection) (w : World) (m u : String)
    (ro : Option RequestOptions) (rs : α) (hkey : c.apikey ≠ "") :
    doWithAuth t dl fuel dec c w m u ro rs =
      do_ t dl fuel dec c w m u
        { ro.getD {} with Headers := [("tenant", c.tenant), ("Auth-Token", c.apikey)] }
        rs true false := by
  simp only [doWithAuth, hkey, if_false]
  cases ro <;> rfl

/-! ## The requests a call sends -/

theorem requestUrl_loginOnce (t : Transport) (dl : Decoder ApiLogin) (c : ApiConnection)
    (w : World) (u : String) : requestUrl (loginOnce t dl c w).2.1 u = requestUrl c u := by
  rw [loginOnce_conn]
  rfl

theorem once_permissionDenied (t : Transport) {α : Type} (dec : Decoder α) (c : ApiConnection)
    (w : World) (m u : String) (ro : RequestOptions) (rs : α) (s : Bool) (r : Response)
    (ht : t w.sent.length = Reply.response r) (h401 : r.StatusCode = PermissionDenied) :
    (once t dec c w m u ro rs false s).err = some GoErr.permissionDenied := by
  have hok : r.Ok = false := by
    cases h : r.Ok with
    | false => rfl
    | true => exact absurd h401 (ok_ne_permissionDenied r h)
  rw [once_notOk t dec c w m u ro rs false s r ht hok (Or.inl rfl), h401]
  rfl

/-- The requests `do` puts on the wire on a call that may retry. -/
theorem doFlat_sent (t : Transport) (dl : Decoder ApiLogin) {α : Type} (dec : Decoder α)
    (c : ApiConnection) (w : World) (m u : String) (ro : RequestOptions) (rs : α) (s : Bool) :
    (doFlat t dl dec c w m u ro rs s).world.sent =
        w.sent ++ [{ Method := m, Url := requestUrl c u, Options := ro }] ∨
    (doFlat t dl dec c w m u ro rs s).world.sent =
        w.sent ++ [{ Method := m, Url := requestUrl c u, Options := ro }, loginRequest c] ∨
    ((doFlat t dl dec c w m u ro rs s).world.sent =
        w.sent ++ [{ Method := m, Url := requestUrl c u, Options := ro }, loginRequest c,
          { Method := m, Url := requestUrl c u, Options := ro }] ∧
      ∀ r, t (w.sent.length + 2) = Reply.response r → r.StatusCode = PermissionDenied →
        (doFlat t dl dec c w m u ro rs s).err = some GoErr.permissionDenied) := by
  unfold doFlat
  cases ht : t w.sent.length with
  | failure msg =>
    left
    simp only [once_failure t dec c w m u ro rs true s msg ht]
    rfl
  | response r =>
    simp only
    split_ifs with h401
    · have hw := loginOnce_world t dl c (afterSend c w m u ro s)
      have hu := requestUrl_loginOnce t dl c (afterSend c w m u ro s) u
      rcases hlo : loginOnce t dl c (afterSend c w m u ro s) with ⟨e, c2, w3⟩
      rw [hlo] at hw hu
      simp only at hw hu
      subst hw
      cases e with
      | some e2 =>
        right; left
        simp [afterSend, loginRequest]
      | none =>
        right; right
        simp only
        refine ⟨?_, ?_⟩
        · rw [once_world]
          simp [afterSend, loginRequest, hu]
        · intro r2 hr2 h2
          refine once_permissionDenied t dec c2 _ m u ro rs s r2 ?_ h2
          simpa [afterSend, Nat.add_assoc] using hr2
    · left
      cases hok : r.Ok with
      | false =>
        rw [once_notOk t dec c w m u ro rs true s r ht hok (Or.inr h401)]
        rfl
      | true =>
        rw [once_ok t dec c w m u ro rs true s r ht hok]
        rfl


theorem hasAuthToken_auth (m : String) (url : URL) (ro : RequestOptions) (tenant key : String) :
    hasAuthToken
      { Method := m, Url := url,
        Options := { ro with Headers := [("tenant", tenant), ("Auth-Token", key)] } } = true := by
  simp [hasAuthToken, List.lookup]

theorem hasAuthToken_login (c : ApiConnection) : hasAuthToken (loginRequest c) = false := by
  simp [hasAuthToken, loginRequest, loginOptions, List.lookup]

/-- The requests `doFlat` sends for a request that carries an `Auth-Token`. -/
theorem doFlat_counts (t : Transport) (dl : Decoder ApiLogin) {α : Type} (dec : Decoder α)
    (c : ApiConnection) (w : World) (m u : String) (ro : RequestOptions) (rs : α) (s : Bool)
    (tenant key : String) :
    ∃ new, (doFlat t dl dec c w m u { ro with Headers := [("tenant", tenant), ("Auth-Token", key)] }
        rs s).world.sent = w.sent ++ new ∧
      1 ≤ new.length ∧
      new.countP hasAuthToken ≤ 2 ∧ new.countP (fun q => !hasAuthToken q) ≤ 1 ∧
      (new.countP hasAuthToken = 2 →
        (∃ q, new.getLast? = some q ∧ hasAuthToken q = true) ∧
        ∀ r, t (w.sent.length + new.length - 1) = Reply.response r →
          r.StatusCode = PermissionDenied →
          (doFlat t dl dec c w m u { ro with Headers := [("tenant", tenant), ("Auth-Token", key)] }
            rs s).err = some GoErr.permissionDenied) := by
  have ha := hasAuthToken_auth m (requestUrl c u) ro tenant key
  have hl := hasAuthToken_login c
  rcases doFlat_sent t dl dec c w m u
    { ro with Headers := [("tenant", tenant), ("Auth-Token", key)] } rs s with h | h | ⟨h, h2⟩
  · exact ⟨_, h, by simp, by simp [List.countP_cons, ha], by simp [List.countP_cons, ha],
      by simp [List.countP_cons, ha]⟩
  · exact ⟨_, h, by simp, by simp [List.countP_cons, ha, hl], by simp [List.countP_cons, ha, hl],
      by simp [List.countP_cons, ha, hl]⟩
  · refine ⟨_, h, by simp, by simp [List.countP_cons, ha, hl], by simp [List.countP_cons, ha, hl],
      fun _ => ⟨⟨_, by simp, ha⟩, ?_⟩⟩
    intro r hr h401
    exact h2 r (by simpa using hr) h401


/-- C1: under any transport (whose replies carry HTTP status codes, so never the
number 9999) a call of `doWithAuth` with fuel 3 or more returns; among the requests
it sends at most two carry an `Auth-Token` (the caller's request and one re-issue)
and at most two are login requests; when the caller's request was sent twice, the
second one is the last request sent, and a 401 in reply to it makes the call return
`PermissionDenied`. -/
theorem doWithAuth_reissues_at_most_once (t : Transport) (dl : Decoder ApiLogin) (fuel : Nat)
    {α : Type} (dec : Decoder α) (c : ApiConnection) (w : World) (m u : String)
    (ro : Option RequestOptions) (rs : α) (hfuel : 3 ≤ fuel) (hns : NoSentinelStatus t) :
    ∃ r new, doWithAuth t dl fuel dec c w m u ro rs = some r ∧
      r.world.sent = w.sent ++ new ∧
      new.countP hasAuthToken ≤ 2 ∧ new.countP (fun q => !hasAuthToken q) ≤ 2 ∧
      (new.countP hasAuthToken = 2 →
        (∃ q, new.getLast? = some q ∧ hasAuthToken q = true) ∧
        ∀ resp, t (w.sent.length + new.length - 1) = Reply.response resp →
          resp.StatusCode = PermissionDenied → r.err = some GoErr.permissionDenied) := by
  obtain ⟨f, rfl⟩ : ∃ f, fuel = f + 3 := ⟨fuel - 3, by omega⟩
  rw [doWithAuth_flat t dl f dec c w m u ro rs hns]
  suffices h : ∃ new, (authFlat t dl dec c w m u ro rs).world.sent = w.sent ++ new ∧
      new.countP hasAuthToken ≤ 2 ∧ new.countP (fun q => !hasAuthToken q) ≤ 2 ∧
      (new.countP hasAuthToken = 2 →
        (∃ q, new.getLast? = some q ∧ hasAuthToken q = true) ∧
        ∀ resp, t (w.sent.length + new.length - 1) = Reply.response resp →
          resp.StatusCode = PermissionDenied →
          (authFlat t dl dec c w m u ro rs).err = some GoErr.permissionDenied) by
    obtain ⟨new, h⟩ := h
    exact ⟨_, new, rfl, h⟩
  unfold authFlat
  simp only
  split_ifs with hk
  · have hw := loginOnce_world t dl c w
    rcases hlo : loginOnce t dl c w with ⟨e, c1, w1⟩
    rw [hlo] at hw
    simp only at hw
    subst hw
    cases e with
    | some e1 =>
      refine ⟨[loginRequest c], by simp [afterSend, loginRequest], ?_, ?_, ?_⟩ <;>
        simp [List.countP_cons, hasAuthToken_login]
    | none =>
      simp only
      obtain ⟨new, h1, h2, h3, h4, h5⟩ := doFlat_counts t dl dec c1
        (afterSend c w "PUT" "login" loginOptions true) m u
        (match ro with
          | none => {}
          | some o => o) rs false c1.tenant c1.apikey
      refine ⟨loginRequest c :: new, ?_, ?_, ?_, ?_⟩
      · rw [h1]
        simp [afterSend, loginRequest]
      · simpa [List.countP_cons, hasAuthToken_login] using h3
      · simp only [List.countP_cons, hasAuthToken_login]
        simpa using h4
      · intro h6
        have h7 : new.countP hasAuthToken = 2 := by
          simpa [List.countP_cons, hasAuthToken_login] using h6
        obtain ⟨⟨q, hq, hq2⟩, h8⟩ := h5 h7
        refine ⟨⟨q, ?_, hq2⟩, ?_⟩
        · cases new with
          | nil => simp at h2
          | cons a l => simpa [List.getLast?_cons_cons] using hq
        · intro resp hr
          apply h8
          have : (afterSend c w "PUT" "login" loginOptions true).sent.length + new.length - 1
              = w.sent.length + (loginRequest c :: new).length - 1 := by
            simp [afterSend]
          rw [this]
          exact hr
  · obtain ⟨new, h1, _, h3, h4, h5⟩ := doFlat_counts t dl dec c w m u
        (match ro with
          | none => {}
          | some o => o) rs false c.tenant c.apikey
    exact ⟨new, h1, h3, by omega, h5⟩

theorem noSentinel_twice401 : NoSentinelStatus twice401 := by
  intro n r h
  rcases n with _ | _ | n <;> simp [twice401] at h <;> subst h <;> decide

/-- C1, at the connection `sampleConn` and the transport `twice401`. -/
theorem doWithAuth_reissues_at_most_once_witness :
    3 ≤ 3 ∧ NoSentinelStatus twice401 ∧
    ∃ r new, doWithAuth twice401 sampleLoginJSON 3 bodyAsText sampleConn {} "GET" "app_instances"
        none "" = some r ∧
      r.world.sent = ({} : World).sent ++ new ∧
      new.countP hasAuthToken ≤ 2 ∧ new.countP (fun q => !hasAuthToken q) ≤ 2 ∧
      (new.countP hasAuthToken = 2 →
        (∃ q, new.getLast? = some q ∧ hasAuthToken q = true) ∧
        ∀ resp, twice401 (({} : World).sent.length + new.length - 1) = Reply.response resp →
          resp.StatusCode = PermissionDenied → r.err = some GoErr.permissionDenied) :=
  ⟨by decide, noSentinel_twice401,
    doWithAuth_reissues_at_most_once twice401 sampleLoginJSON 3 bodyAsText sampleConn {} "GET"
      "app_instances" none "" (by decide) noSentinel_twice401⟩

/-- C2: on a connection that holds an API key, when the caller's request is answered
with 401, the login request that follows with a 2xx whose body decodes to the login
record `l`, and the request sent after it with a 200 whose body decodes to `rs1`,
`doWithAuth` returns no error, the container holds `rs1`, the API key is the key of
`l`, and the requests sent are the caller's request, one login request and the
caller's request once more. -/
theorem doWithAuth_relogin_then_success (t : Transport) (dl : Decoder ApiLogin) (fuel : Nat)
    {α : Type} (dec : Decoder α) (c : ApiConnection) (w : World) (m u : String)
    (ro : Option RequestOptions) (rs rs1 : α) (r1 r2 r3 : Response) (l : ApiLogin)
    (hfuel : 3 ≤ fuel) (hkey : c.apikey ≠ "")
    (h1 : t w.sent.length = Reply.response r1) (h1s : r1.StatusCode = 401)
    (h2 : t (w.sent.length + 1) = Reply.response r2) (h2ok : r2.Ok = true)
    (h2d : dl r2.Body {} = (l, none))
    (h3 : t (w.sent.length + 2) = Reply.response r3) (h3s : r3.StatusCode = 200)
    (h3d : dec r3.Body rs = (rs1, none)) :
    ∃ r, doWithAuth t dl fuel dec c w m u ro rs = some r ∧ r.err = none ∧ r.rs = rs1 ∧
      r.conn.apikey = l.Key ∧
      r.world.sent = w.sent ++ [authRequest c c.apikey m u (ro.getD {}), loginRequest c,
        authRequest c c.apikey m u (ro.getD {})] := by
  obtain ⟨f, rfl⟩ : ∃ f, fuel = f + 3 := ⟨fuel - 3, by omega⟩
  have h3ok : r3.Ok = true := by simp [Response.Ok, h3s]
  rw [doWithAuth_key t dl (f + 3) dec c w m u ro rs hkey,
    do_relogin_ok t dl f dec c w m u _ rs false r1 r2 l h1 h1s h2 h2ok h2d
      (fun r hr => by rw [h3] at hr; cases hr; exact ok_ne_sentinel _ h3ok)]
  have h3' : t (afterSend c (afterSend c w m u
      { ro.getD {} with Headers := [("tenant", c.tenant), ("Auth-Token", c.apikey)] }
      false) "PUT" "login" loginOptions true).sent.length = Reply.response r3 := by
    rw [afterSend_length, afterSend_length]; exact h3
  rw [once_ok t dec _ _ m u _ rs false false r3 h3' h3ok, h3d]
  refine ⟨_, rfl, rfl, rfl, rfl, ?_⟩
  simp [afterSend, authRequest, loginRequest, requestUrl]

/-- C2, at the connection `sampleConn` and the transport `expiredOnce`. -/
theorem doWithAuth_relogin_then_success_witness :
    ∃ r, doWithAuth expiredOnce sampleLoginJSON 3 bodyAsText sampleConn {} "GET" "app_instances"
        none "" = some r ∧ r.err = none ∧ r.rs = "payload" ∧ r.conn.apikey = "k1" ∧
      r.world.sent = ({} : World).sent ++
        [authRequest sampleConn sampleConn.apikey "GET" "app_instances" ((none : Option RequestOptions).getD {}),
          loginRequest sampleConn,
          authRequest sampleConn sampleConn.apikey "GET" "app_instances" ((none : Option RequestOptions).getD {})] :=
  doWithAuth_relogin_then_success expiredOnce sampleLoginJSON 3 bodyAsText sampleConn {} "GET"
    "app_instances" none "" "payload" { StatusCode := 401, Body := "expired" }
    { StatusCode := 200, Body := "\x7b\"key\":\"k1\"\x7d" } { StatusCode := 200, Body := "payload" }
    { Key := "k1" } (by decide) (by decide) rfl rfl rfl rfl rfl rfl rfl rfl

/-- C3: a response that is not `Ok` and whose status is none of 400, 401 and 9999
makes `do` return the nil error, with the container untouched: the status is not a
key of `badStatus`, so the error handed back is the zero value of the map. -/
theorem do_unlisted_status_returns_nil (t : Transport) (dl : Decoder ApiLogin) (fuel : Nat)
    {α : Type} (dec : Decoder α) (c : ApiConnection) (w : World) (m u : String)
    (ro : RequestOptions) (rs : α) (retry s : Bool) (r : Response)
    (ht : t w.sent.length = Reply.response r) (hok : r.Ok = false)
    (h400 : r.StatusCode ≠ 400) (h401 : r.StatusCode ≠ 401) (h9999 : r.StatusCode ≠ 9999) :
    do_ t dl (fuel + 1) dec c w m u ro rs retry s =
      some { err := none, conn := c, world := afterSend c w m u ro s, rs := rs } := by
  rw [do_once t dl fuel dec c w m u ro rs retry s (fun r' hr => by
    rw [ht] at hr; cases hr; exact ⟨h9999, Or.inr h401⟩)]
  rw [once_notOk t dec c w m u ro rs retry s r ht hok (Or.inr h401)]
  simp [badStatus, InvalidRequest, PermissionDenied, RetryRequestAfterLogin, h400, h401, h9999]

/-- C3, at a 500 reply: `do` hands back the nil error. -/
theorem do_unlisted_status_returns_nil_witness :
    do_ serverError sampleLoginJSON 1 bodyAsText sampleConn {} "GET" "app_instances" {} ""
        false false =
      some { err := none, conn := sampleConn,
             world := afterSend sampleConn {} "GET" "app_instances" {} false, rs := "" } :=
  do_unlisted_status_returns_nil serverError sampleLoginJSON 0 bodyAsText sampleConn {} "GET"
    "app_instances" {} "" false false _ rfl (by decide) (by decide) (by decide) (by decide)

/-- C4: on a connection that holds an API key, after a 401 and a login that
succeeds with the login record `l`, the API key of the connection is the key of `l`
while the request sent again, the last one sent, still carries the `Auth-Token` the
connection held before the login. -/
theorem doWithAuth_reissue_carries_old_key (t : Transport) (dl : Decoder ApiLogin) (fuel : Nat)
    {α : Type} (dec : Decoder α) (c : ApiConnection) (w : World) (m u : String)
    (ro : Option RequestOptions) (rs : α) (r1 r2 : Response) (l : ApiLogin)
    (hfuel : 3 ≤ fuel) (hkey : c.apikey ≠ "")
    (h1 : t w.sent.length = Reply.response r1) (h1s : r1.StatusCode = 401)
    (h2 : t (w.sent.length + 1) = Reply.response r2) (h2ok : r2.Ok = true)
    (h2d : dl r2.Body {} = (l, none))
    (h3 : ∀ r, t (w.sent.length + 2) = Reply.response r → r.StatusCode ≠ 9999) :
    ∃ r q, doWithAuth t dl fuel dec c w m u ro rs = some r ∧ r.conn.apikey = l.Key ∧
      r.world.sent.getLast? = some q ∧
      q.Options.Headers = [("tenant", c.tenant), ("Auth-Token", c.apikey)] := by
  obtain ⟨f, rfl⟩ : ∃ f, fuel = f + 3 := ⟨fuel - 3, by omega⟩
  rw [doWithAuth_key t dl (f + 3) dec c w m u ro rs hkey,
    do_relogin_ok t dl f dec c w m u _ rs false r1 r2 l h1 h1s h2 h2ok h2d h3]
  refine ⟨_, authRequest c c.apikey m u (ro.getD {}), rfl, ?_, ?_, rfl⟩
  · rw [once_conn]
  · rw [once_world]
    simp [afterSend, authRequest, requestUrl]

/-- C4, at the connection `sampleConn` (key `k0`) and the transport `expiredOnce`
(whose login reply carries the key `k1`). -/
theorem doWithAuth_reissue_carries_old_key_witness :
    ∃ r q, doWithAuth expiredOnce sampleLoginJSON 3 bodyAsText sampleConn {} "GET"
        "app_instances" none "" = some r ∧ r.conn.apikey = "k1" ∧
      r.world.sent.getLast? = some q ∧
      q.Options.Headers = [("tenant", "/root"), ("Auth-Token", "k0")] :=
  doWithAuth_reissue_carries_old_key expiredOnce sampleLoginJSON 3 bodyAsText sampleConn {}
    "GET" "app_instances" none "" { StatusCode := 401, Body := "expired" }
    { StatusCode := 200, Body := "\x7b\"key\":\"k1\"\x7d" } { Key := "k1" }
    (by decide) (by decide) rfl rfl rfl rfl rfl
    (fun r hr => by
      have h : r = { StatusCode := 200, Body := "payload" } := by
        simpa [expiredOnce] using hr.symm
      subst h
      decide)

/-- `Login` when its request fails in the transport. -/
theorem Login_failure (t : Transport) (dl : Decoder ApiLogin) (fuel : Nat) (c : ApiConnection)
    (w : World) (msg : String) (ht : t w.sent.length = Reply.failure msg) :
    Login t dl (fuel + 2) c w = some (some (GoErr.lib msg), { c with apikey := "" },
      afterSend c w "PUT" "login" loginOptions true) := by
  rw [Login_once t dl fuel c w (fun r hr => by rw [ht] at hr; cases hr),
    loginOnce_failure t dl c w msg ht]

/-- `Login` when its request is answered with a status that is not 2xx. -/
theorem Login_notOk (t : Transport) (dl : Decoder ApiLogin) (fuel : Nat) (c : ApiConnection)
    (w : World) (r : Response) (ht : t w.sent.length = Reply.response r) (hok : r.Ok = false)
    (h9 : r.StatusCode ≠ RetryRequestAfterLogin) :
    Login t dl (fuel + 2) c w = some (badStatus r.StatusCode, { c with apikey := "" },
      afterSend c w "PUT" "login" loginOptions true) := by
  rw [Login_once t dl fuel c w (fun r' hr => by rw [ht] at hr; cases hr; exact h9),
    loginOnce_notOk t dl c w r ht hok]

/-- `Login` when its request is answered with a 2xx. -/
theorem Login_ok (t : Transport) (dl : Decoder ApiLogin) (fuel : Nat) (c : ApiConnection)
    (w : World) (r : Response) (ht : t w.sent.length = Reply.response r) (hok : r.Ok = true) :
    Login t dl (fuel + 2) c w = some ((dl r.Body {}).2.map GoErr.lib,
      { c with apikey := (dl r.Body {}).1.Key },
      afterSend c w "PUT" "login" loginOptions true) := by
  rw [Login_once t dl fuel c w (fun r' hr => by
      rw [ht] at hr; cases hr; exact ok_ne_sentinel _ hok),
    loginOnce_ok t dl c w r ht hok]

theorem notOk_of_400_401 (r : Response) (hs : r.StatusCode = 400 ∨ r.StatusCode = 401) :
    r.Ok = false ∧ r.StatusCode ≠ RetryRequestAfterLogin ∧
      (badStatus r.StatusCode = some GoErr.invalidRequest ∨
        badStatus r.StatusCode = some GoErr.permissionDenied) := by
  rcases hs with hs | hs
  · exact ⟨by simp [Response.Ok, hs], by simp [hs, RetryRequestAfterLogin], Or.inl (by rw [hs]; rfl)⟩
  · exact ⟨by simp [Response.Ok, hs], by simp [hs, RetryRequestAfterLogin], Or.inr (by rw [hs]; rfl)⟩

/-- C5, refuted as stated: a login request answered with a 200 whose body carries no
key makes `Login` return the nil error and leaves the API key empty. -/
theorem Login_nil_error_with_empty_key :
    (Login emptyObject sampleLoginJSON 2 freshConn {}).map (fun x => (x.1, x.2.1.apikey)) =
      some (none, "") := by
  decide

/-- C5, amended: the API key after `Login` is the key of the login container. When
the login request fails in the transport, or is answered with 400 or 401, `Login`
returns an error and the API key is empty afterwards; when it is answered with a 2xx
whose body decodes to the login record `l`, `Login` returns the nil error and the API
key afterwards is the key of `l`. -/
theorem Login_key_afterwards (t : Transport) (dl : Decoder ApiLogin) (fuel : Nat)
    (c : ApiConnection) (w : World) (hfuel : 2 ≤ fuel) :
    (∀ msg, t w.sent.length = Reply.failure msg →
      ∃ e w1, Login t dl fuel c w = some (some e, { c with apikey := "" }, w1)) ∧
    (∀ r, t w.sent.length = Reply.response r → r.StatusCode = 400 ∨ r.StatusCode = 401 →
      ∃ e w1, Login t dl fuel c w = some (some e, { c with apikey := "" }, w1)) ∧
    (∀ r l, t w.sent.length = Reply.response r → r.Ok = true → dl r.Body {} = (l, none) →
      ∃ w1, Login t dl fuel c w = some (none, { c with apikey := l.Key }, w1)) := by
  obtain ⟨f, rfl⟩ : ∃ f, fuel = f + 2 := ⟨fuel - 2, by omega⟩
  refine ⟨?_, ?_, ?_⟩
  · intro msg ht
    exact ⟨_, _, Login_failure t dl f c w msg ht⟩
  · intro r ht hs
    obtain ⟨hok, h9, hb⟩ := notOk_of_400_401 r hs
    rw [Login_notOk t dl f c w r ht hok h9]
    rcases hb with hb | hb <;> rw [hb] <;> exact ⟨_, _, rfl⟩
  · intro r l ht hok hd
    rw [Login_ok t dl f c w r ht hok, hd]
    exact ⟨_, rfl⟩

/-- C5 amended, at three transports: one that fails, one that answers 401 and one
that answers with a 200 that carries the key `k1`. -/
theorem Login_key_afterwards_witness :
    (∃ e w1, Login unreachable sampleLoginJSON 2 sampleConn {} =
      some (some e, { sampleConn with apikey := "" }, w1)) ∧
    (∃ e w1, Login alwaysDenied sampleLoginJSON 2 sampleConn {} =
      some (some e, { sampleConn with apikey := "" }, w1)) ∧
    (∃ w1, Login grantsK1 sampleLoginJSON 2 sampleConn {} =
      some (none, { sampleConn with apikey := "k1" }, w1)) :=
  ⟨(Login_key_afterwards unreachable sampleLoginJSON 2 sampleConn {} (by decide)).1
      "connection refused" rfl,
    (Login_key_afterwards alwaysDenied sampleLoginJSON 2 sampleConn {} (by decide)).2.1
      _ rfl (Or.inr rfl),
    (Login_key_afterwards grantsK1 sampleLoginJSON 2 sampleConn {} (by decide)).2.2
      _ { Key := "k1" } rfl rfl rfl⟩

/-- C8, refuted as stated: on a connection that holds the key `k0`, a login request
answered with 401 makes `Login` return an error and leaves the API key empty. -/
theorem Login_error_erases_key :
    sampleConn.apikey = "k0" ∧
    (Login alwaysDenied sampleLoginJSON 2 sampleConn {}).map (fun x => (x.1, x.2.1.apikey)) =
      some (some GoErr.permissionDenied, "") := by
  decide

/-- Whatever the transport answers and however much fuel there is, a call of `do` or
of `Login` that returns leaves every field of the connection as it was, the API key
apart. -/
theorem do_Login_frame (t : Transport) (dl : Decoder ApiLogin) (fuel : Nat) :
    (∀ {α : Type} (dec : Decoder α) (c : ApiConnection) (w : World) (m u : String)
      (ro : RequestOptions) (rs : α) (retry s : Bool) (r : Result α),
      do_ t dl fuel dec c w m u ro rs retry s = some r →
        r.conn = { c with apikey := r.conn.apikey }) ∧
    (∀ (c : ApiConnection) (w : World) (x : Option GoErr × ApiConnection × World),
      Login t dl fuel c w = some x → x.2.1 = { c with apikey := x.2.1.apikey }) := by
  induction fuel with
  | zero =>
    constructor
    · intro α dec c w m u ro rs retry s r h
      simp [do_] at h
    · intro c w x h
      simp [Login] at h
  | succ f ih =>
    obtain ⟨ihd, ihl⟩ := ih
    constructor
    · intro α dec c w m u ro rs retry s r h
      simp only [do_] at h
      generalize DoRegularRequest t _ _ = d at h
      obtain ⟨⟨resp, err⟩, w2⟩ := d
      simp only at h
      generalize checkResponse resp err retry = cr at h
      obtain ⟨eresp, err1⟩ := cr
      simp only at h
      split_ifs at h with h1 h2
      · cases hl : Login t dl f c w2 with
        | none => simp [hl] at h
        | some x =>
          obtain ⟨err2, c2, w3⟩ := x
          have hc2 := ihl _ _ _ hl
          simp only at hc2
          simp only [hl] at h
          split_ifs at h with h3
          · cases h
            exact hc2
          · have hr := ihd _ _ _ _ _ _ _ _ _ _ h
            rw [hr, hc2]
      · cases h
        rfl
      · generalize dec resp.Body rs = dd at h
        obtain ⟨rs1, _ | msg⟩ := dd <;> cases h <;> rfl
    · intro c w x h
      simp only [Login] at h
      cases hr : do_ t dl f dl c w "PUT" "login"
          { Data := [("name", "admin"), ("password", "password")] } ({} : ApiLogin)
          false true with
      | none => simp [hr] at h
      | some r =>
        simp only [hr, Option.some.injEq] at h
        subst h
        have := ihd _ _ _ _ _ _ _ _ _ _ hr
        simp only
        rw [this]

/-- C8, amended: `Login` changes no field of the connection other than the API key,
whatever the reply: a call that returns hands back the connection it was given with
another API key, and the call returns whenever its request is not answered with the
number 9999. A `Login` whose request fails in the transport or is answered with 400
or 401 returns an error and sets the API key to the empty string, whatever it was
before. -/
theorem Login_error_sets_key_empty (t : Transport) (dl : Decoder ApiLogin) (fuel : Nat)
    (c : ApiConnection) (w : World) (hfuel : 2 ≤ fuel) :
    (∀ x, Login t dl fuel c w = some x → x.2.1 = { c with apikey := x.2.1.apikey }) ∧
    ((∀ r, t w.sent.length = Reply.response r → r.StatusCode ≠ 9999) →
      ∃ x, Login t dl fuel c w = some x) ∧
    (((∃ msg, t w.sent.length = Reply.failure msg) ∨
        ∃ r, t w.sent.length = Reply.response r ∧ (r.StatusCode = 400 ∨ r.StatusCode = 401)) →
      ∃ e c1 w1, Login t dl fuel c w = some (some e, c1, w1) ∧ c1.apikey = "" ∧
        c1 = { c with apikey := "" }) := by
  refine ⟨fun x hx => (do_Login_frame t dl fuel).2 c w x hx, ?_, ?_⟩
  · intro hs
    obtain ⟨f, rfl⟩ : ∃ f, fuel = f + 2 := ⟨fuel - 2, by omega⟩
    exact ⟨_, Login_once t dl f c w hs⟩
  · intro hrep
    obtain ⟨f, rfl⟩ : ∃ f, fuel = f + 2 := ⟨fuel - 2, by omega⟩
    rcases hrep with ⟨msg, ht⟩ | ⟨r, ht, hr⟩
    · exact ⟨_, _, _, Login_failure t dl f c w msg ht, rfl, rfl⟩
    · obtain ⟨hok, h9, hb⟩ := notOk_of_400_401 r hr
      rw [Login_notOk t dl f c w r ht hok h9]
      rcases hb with hb | hb <;> rw [hb] <;> exact ⟨_, _, _, rfl, rfl, rfl⟩

/-- C8 amended, at the connection `sampleConn` (key `k0`) and a transport that
answers 401. -/
theorem Login_error_sets_key_empty_witness :
    (∀ x, Login alwaysDenied sampleLoginJSON 2 sampleConn {} = some x →
      x.2.1 = { sampleConn with apikey := x.2.1.apikey }) ∧
    (∃ x, Login alwaysDenied sampleLoginJSON 2 sampleConn {} = some x) ∧
    (∃ e c1 w1, Login alwaysDenied sampleLoginJSON 2 sampleConn {} = some (some e, c1, w1) ∧
      c1.apikey = "" ∧ c1 = { sampleConn with apikey := "" }) :=
  ⟨(Login_error_sets_key_empty alwaysDenied sampleLoginJSON 2 sampleConn {} (by decide)).1,
    (Login_error_sets_key_empty alwaysDenied sampleLoginJSON 2 sampleConn {} (by decide)).2.1
      (fun r hr => by
        have h : r = { StatusCode := 401,
                       Body := "\x7b\"name\":\"AuthFailedError\"\x7d" } := by
          simpa [alwaysDenied] using hr.symm
        subst h
        decide),
    (Login_error_sets_key_empty alwaysDenied sampleLoginJSON 2 sampleConn {} (by decide)).2.2
      (Or.inr ⟨_, rfl, Or.inr rfl⟩)⟩

/-- C6: on a connection built by `NewApiConnection` from a configuration, the
connection holds the user name and the password of the configuration, and the one
request `Login` sends is a PUT to the path `login` joined to the base URL, without
headers, whose body is the literal pair `name = admin`, `password = password`. -/
theorem Login_sends_literal_credentials (urlParse : String → Except GoErr URL) (cfg : UDC)
    (secure : Bool) (c : ApiConnection) (t : Transport) (dl : Decoder ApiLogin) (fuel : Nat)
    (w : World) (hc : NewApiConnection urlParse cfg secure = some c) (hfuel : 2 ≤ fuel)
    (hs : ∀ r, t w.sent.length = Reply.response r → r.StatusCode ≠ 9999) :
    c.username = cfg.Username ∧ c.password = cfg.Password ∧
    ∃ e c1 w1, Login t dl fuel c w = some (e, c1, w1) ∧
      w1.sent = w.sent ++ [{ Method := "PUT", Url := requestUrl c "login",
                             Options := { Data := [("name", "admin"), ("password", "password")],
                                          JSON := none, Headers := [] } }] := by
  obtain ⟨f, rfl⟩ : ∃ f, fuel = f + 2 := ⟨fuel - 2, by omega⟩
  have hc2 : c.username = cfg.Username ∧ c.password = cfg.Password := by
    unfold NewApiConnection at hc
    split at hc
    · cases hc
    · cases hc
      exact ⟨rfl, rfl⟩
  refine ⟨hc2.1, hc2.2, ?_⟩
  rw [Login_once t dl f c w hs]
  refine ⟨_, _, _, rfl, ?_⟩
  rw [once_world]
  rfl

/-- C6, at the configuration `sampleConfig`, whose credentials are `alice` and
`s3cret`. -/
theorem Login_sends_literal_credentials_witness :
    NewApiConnection sampleParse sampleConfig false = some freshConn ∧
    freshConn.username = "alice" ∧ freshConn.password = "s3cret" ∧
    ∃ e c1 w1, Login grantsK1 sampleLoginJSON 2 freshConn {} = some (e, c1, w1) ∧
      w1.sent = ({} : World).sent ++
        [{ Method := "PUT", Url := requestUrl freshConn "login",
           Options := { Data := [("name", "admin"), ("password", "password")],
                        JSON := none, Headers := [] } }] :=
  ⟨by decide,
    Login_sends_literal_credentials sampleParse sampleConfig false freshConn grantsK1
      sampleLoginJSON 2 {} (by decide) (by decide) (fun r hr => by
        have h : r = { StatusCode := 200, Body := "\x7b\"key\":\"k1\"\x7d" } := by
          simpa [grantsK1] using hr.symm
        subst h
        decide)⟩

theorem dropWhile_slash (l : List Char) :
    (∃ i, l = List.replicate i '/' ++ l.dropWhile (fun c => c == '/')) ∧
      (l.dropWhile (fun c => c == '/')).head? ≠ some '/' := by
  induction l with
  | nil => exact ⟨⟨0, rfl⟩, by simp⟩
  | cons a l ih =>
    by_cases h : a = '/'
    · subst h
      obtain ⟨⟨i, hi⟩, h2⟩ := ih
      refine ⟨⟨i + 1, ?_⟩, ?_⟩
      · simp only [List.dropWhile_cons, beq_self_eq_true, if_true, List.replicate_succ,
          List.cons_append]
        rw [← hi]
      · simpa [List.dropWhile_cons] using h2
    · refine ⟨⟨0, ?_⟩, ?_⟩
      · simp [List.dropWhile_cons, h]
      · simp [List.dropWhile_cons, h]

theorem rdropWhile_slash (l : List Char) :
    (∃ j, l = l.rdropWhile (fun c => c == '/') ++ List.replicate j '/') ∧
      (l.rdropWhile (fun c => c == '/')).getLast? ≠ some '/' := by
  obtain ⟨⟨j, hj⟩, h2⟩ := dropWhile_slash l.reverse
  refine ⟨⟨j, ?_⟩, ?_⟩
  · have := congrArg List.reverse hj
    simpa [List.rdropWhile] using this
  · simpa [List.rdropWhile, List.getLast?_reverse] using h2

theorem stringsTrim_slash (h : String) :
    (∃ i j, h.data = List.replicate i '/' ++ (stringsTrim h "/").data ++ List.replicate j '/') ∧
      (stringsTrim h "/").data.head? ≠ some '/' ∧
      (stringsTrim h "/").data.getLast? ≠ some '/' := by
  have hp : (fun c => ("/" : String).data.contains c) = (fun c : Char => c == '/') := by
    funext c
    show List.elem c ['/'] = (c == '/')
    simp only [List.elem]
    cases c == '/' <;> rfl
  simp only [stringsTrim, hp]
  obtain ⟨⟨i, hi⟩, h1⟩ := dropWhile_slash h.data
  obtain ⟨⟨j, hj⟩, h2⟩ := rdropWhile_slash (h.data.dropWhile (fun c => c == '/'))
  refine ⟨⟨i, j, ?_⟩, ?_, h2⟩
  · rw [List.append_assoc, ← hj, ← hi]
  · intro h3
    apply h1
    rw [hj]
    cases hx : List.rdropWhile (fun c => c == '/') (List.dropWhile (fun c => c == '/') h.data) with
    | nil => rw [hx] at h3; simp at h3
    | cons a l =>
      rw [hx] at h3
      simpa using h3

/-- C7: for every host `h` and API version `v`, `makeBaseUrl` hands back the parse of
the text `https://H:7718/vV` when `secure` is set and of `http://H:7717/vV`
otherwise, where `V` is `v` and `H` is what is left of `h` once the `/` characters at
its two ends are removed: `h` is `H` between two runs of `/`, and `H` neither starts
nor ends with `/`. -/
theorem makeBaseUrl_url (urlParse : String → Except GoErr URL) (h v : String) :
    ∃ H : String,
      makeBaseUrl urlParse h v true = urlParse ("https://" ++ H ++ ":7718/v" ++ v) ∧
      makeBaseUrl urlParse h v false = urlParse ("http://" ++ H ++ ":7717/v" ++ v) ∧
      (∃ i j, h.data = List.replicate i '/' ++ H.data ++ List.replicate j '/') ∧
      H.data.head? ≠ some '/' ∧ H.data.getLast? ≠ some '/' := by
  obtain ⟨h1, h2, h3⟩ := stringsTrim_slash h
  exact ⟨stringsTrim h "/", rfl, rfl, h1, h2, h3⟩

/-- The trace records `do` writes on a call that may retry. -/
theorem doFlat_trace (t : Transport) (dl : Decoder ApiLogin) {α : Type} (dec : Decoder α)
    (c : ApiConnection) (w : World) (m u : String) (ro : RequestOptions) (rs : α) (s : Bool) :
    (doFlat t dl dec c w m u ro rs s).world.trace = w.trace ++ [traceOf c m u ro s] ∨
    (doFlat t dl dec c w m u ro rs s).world.trace =
        w.trace ++ [traceOf c m u ro s, traceOf c "PUT" "login" loginOptions true] ∨
    (doFlat t dl dec c w m u ro rs s).world.trace =
        w.trace ++ [traceOf c m u ro s, traceOf c "PUT" "login" loginOptions true,
          traceOf c m u ro s] := by
  unfold doFlat
  cases ht : t w.sent.length with
  | failure msg =>
    left
    simp only [once_failure t dec c w m u ro rs true s msg ht]
    rfl
  | response r =>
    simp only
    split_ifs with h401
    · have hw := loginOnce_world t dl c (afterSend c w m u ro s)
      have hc := loginOnce_conn t dl c (afterSend c w m u ro s)
      rcases hlo : loginOnce t dl c (afterSend c w m u ro s) with ⟨e, c2, w3⟩
      rw [hlo] at hw hc
      simp only at hw hc
      subst hw
      cases e with
      | some e2 =>
        right; left
        simp [afterSend]
      | none =>
        right; right
        simp only
        rw [once_world, hc]
        simp [afterSend, traceOf, requestUrl]
    · left
      cases hok : r.Ok with
      | false =>
        rw [once_notOk t dec c w m u ro rs true s r ht hok (Or.inr h401)]
        rfl
      | true =>
        rw [once_ok t dec c w m u ro rs true s r ht hok]
        rfl

/-- C9: a call of `do` marked sensitive writes at least one request trace record,
and the payload of every record it writes is the marker `********`, whatever the
request options hold; and `Login` on a connection and on the same connection with
another user name and password, each under any transport, write the same request
trace: one record with the payload `********` and no headers. -/
theorem sensitive_payload_is_masked (t t2 : Transport) (dl dl2 : Decoder ApiLogin) (fuel : Nat)
    {α : Type} (dec : Decoder α) (c : ApiConnection) (w : World) (m u : String)
    (ro : RequestOptions) (rs : α) (retry : Bool) (user2 password2 : String)
    (hfuel : 3 ≤ fuel) (hns : NoSentinelStatus t) (hns2 : NoSentinelStatus t2) :
    (∃ r new, do_ t dl fuel dec c w m u ro rs retry true = some r ∧
      r.world.trace = w.trace ++ new ∧ new ≠ [] ∧ ∀ x ∈ new, x.Payload = "********") ∧
    (∃ x y, Login t dl fuel c w = some x ∧
      Login t2 dl2 fuel { c with username := user2, password := password2 } w = some y ∧
      x.2.2.trace = y.2.2.trace ∧
      x.2.2.trace = w.trace ++ [{ Url := requestUrl c "login", Method := "PUT",
                                  Payload := "********", Headers := [] }]) := by
  obtain ⟨f, rfl⟩ : ∃ f, fuel = f + 3 := ⟨fuel - 3, by omega⟩
  constructor
  · cases retry with
    | false =>
      rw [do_once t dl (f + 2) dec c w m u ro rs false true
        (fun r hr => ⟨hns _ r hr, Or.inl rfl⟩)]
      refine ⟨_, [traceOf c m u ro true], rfl, ?_, by simp, by simp [traceOf]⟩
      rw [once_world]
      rfl
    | true =>
      rw [do_flat t dl f dec c w m u ro rs true hns]
      rcases doFlat_trace t dl dec c w m u ro rs true with h | h | h <;>
        exact ⟨_, _, rfl, h, by simp, by simp [traceOf]⟩
  · rw [Login_once t dl (f + 1) c w (fun r hr => hns _ r hr),
      Login_once t2 dl2 (f + 1) _ w (fun r hr => hns2 _ r hr)]
    refine ⟨_, _, rfl, rfl, ?_, ?_⟩
    · rw [loginOnce_world, loginOnce_world]
      rfl
    · rw [loginOnce_world]
      rfl

theorem noSentinel_expiredOnce : NoSentinelStatus expiredOnce := by
  intro n r h
  rcases n with _ | _ | n <;> simp [expiredOnce] at h <;> subst h <;> decide

theorem noSentinel_alwaysDenied : NoSentinelStatus alwaysDenied := by
  intro n r h
  simp [alwaysDenied] at h
  subst h
  decide

/-- C9, at the connection `sampleConn` and the same connection with the credentials
`bob` and `hunter2`. -/
theorem sensitive_payload_is_masked_witness :
    (∃ r new, do_ expiredOnce sampleLoginJSON 3 bodyAsText sampleConn {} "PUT" "secrets"
        { JSON := some "\x7b\"token\":\"t0ps3cret\"\x7d" } "" true true = some r ∧
      r.world.trace = ({} : World).trace ++ new ∧ new ≠ [] ∧
      ∀ x ∈ new, x.Payload = "********") ∧
    (∃ x y, Login expiredOnce sampleLoginJSON 3 sampleConn {} = some x ∧
      Login alwaysDenied sampleLoginJSON 3
        { sampleConn with username := "bob", password := "hunter2" } {} = some y ∧
      x.2.2.trace = y.2.2.trace ∧
      x.2.2.trace = ({} : World).trace ++
        [{ Url := requestUrl sampleConn "login", Method := "PUT",
           Payload := "********", Headers := [] }]) :=
  sensitive_payload_is_masked expiredOnce alwaysDenied sampleLoginJSON sampleLoginJSON 3
    bodyAsText sampleConn {} "PUT" "secrets" { JSON := some "\x7b\"token\":\"t0ps3cret\"\x7d" }
    "" true "bob" "hunter2" (by decide) noSentinel_expiredOnce noSentinel_alwaysDenied

/-! ## Package `path`: normal forms, idempotence, associativity -/

/-- The rows of the test table of Go's `path.Clean` and the examples of `path.Join`. -/
theorem Clean_Join_examples :
    pathClean "abc//def//ghi" = "abc/def/ghi" ∧ pathClean "abc/./../def" = "def" ∧
    pathClean "/../abc" = "/abc" ∧ pathClean "abc/../../././../def" = "../../def" ∧
    pathClean "" = "." ∧ pathClean "//" = "/" ∧ pathClean "abc/" = "abc" ∧
    pathClean "../.." = "../.." ∧ pathClean "/abc/def/../../.." = "/" ∧
    pathClean "abc/def/../../../ghi/jkl/../../../mno" = "../../mno" ∧
    pathJoin ["a", "b/c"] = "a/b/c" ∧ pathJoin ["a/b", "../../../xyz"] = "../xyz" ∧
    pathJoin ["", ""] = "" ∧ pathJoin ["a", ""] = "a" ∧ pathJoin ["", "a"] = "a" := by
  decide

theorem splitSlash_ne_nil (p : List Char) : splitSlash p ≠ [] := by
  cases p with
  | nil => simp [splitSlash]
  | cons c cs =>
    unfold splitSlash
    split_ifs
    · simp
    · split <;> simp

theorem splitSlash_append (x y : List Char) :
    splitSlash (x ++ '/' :: y) = splitSlash x ++ splitSlash y := by
  induction x with
  | nil => simp [splitSlash]
  | cons c x ih =>
    by_cases hc : c = '/'
    · subst hc
      simp [splitSlash, ih]
    · simp only [List.cons_append, splitSlash, hc, if_false]
      rw [show x.append ('/' :: y) = x ++ '/' :: y from rfl, ih]
      cases hx : splitSlash x with
      | nil => exact absurd hx (splitSlash_ne_nil x)
      | cons e es => rfl

theorem splitSlash_noslash (e : List Char) (h : '/' ∉ e) : splitSlash e = [e] := by
  induction e with
  | nil => rfl
  | cons c e ih =>
    have hc : c ≠ '/' := fun hc => h (by simp [hc])
    have he : '/' ∉ e := fun he => h (by simp [he])
    simp [splitSlash, hc, ih he]

theorem noslash_of_mem_splitSlash (p e : List Char) (h : e ∈ splitSlash p) : '/' ∉ e := by
  induction p generalizing e with
  | nil =>
    simp [splitSlash] at h
    subst h
    simp
  | cons c p ih =>
    by_cases hc : c = '/'
    · subst hc
      simp only [splitSlash, if_true, List.mem_cons] at h
      rcases h with h | h
      · subst h; simp
      · exact ih e h
    · simp only [splitSlash, hc, if_false] at h
      cases hx : splitSlash p with
      | nil => exact absurd hx (splitSlash_ne_nil p)
      | cons e1 es =>
        rw [hx] at h ih
        simp only [List.mem_cons] at h
        rcases h with h | h
        · subst h
          have := ih e1 (by simp)
          simp only [List.mem_cons, not_or]
          exact ⟨fun h => hc h.symm, this⟩
        · exact ih e (by simp [h])

theorem joinSlash_cons (e : List Char) (es : List (List Char)) (h : es ≠ []) :
    joinSlash (e :: es) = e ++ '/' :: joinSlash es := by
  cases es with
  | nil => exact absurd rfl h
  | cons a l => rfl

theorem splitSlash_joinSlash (es : List (List Char)) (h : es ≠ [])
    (hs : ∀ e ∈ es, '/' ∉ e) : splitSlash (joinSlash es) = es := by
  induction es with
  | nil => exact absurd rfl h
  | cons e es ih =>
    cases es with
    | nil => exact splitSlash_noslash e (hs e (by simp))
    | cons a l =>
      rw [joinSlash_cons e (a :: l) (by simp), splitSlash_append,
        splitSlash_noslash e (hs e (by simp)), ih (by simp) (fun x hx => hs x (by simp [hx]))]
      rfl

theorem joinSlash_eq_nil (es : List (List Char)) (hs : ∀ e ∈ es, e ≠ []) :
    joinSlash es = [] ↔ es = [] := by
  cases es with
  | nil => simp [joinSlash]
  | cons e es =>
    have he : e ≠ [] := hs e (by simp)
    cases es with
    | nil => simp [joinSlash, he]
    | cons a l => simp [joinSlash, he]

theorem head?_joinSlash (e : List Char) (es : List (List Char)) (he : e ≠ []) :
    (joinSlash (e :: es)).head? = e.head? := by
  cases e with
  | nil => exact absurd rfl he
  | cons c e =>
    cases es with
    | nil => rfl
    | cons a l => rfl

theorem cleanStep_skip (r : Bool) (S : List (List Char)) (e : List Char)
    (h : nontriv e = false) : cleanStep r S e = S := by
  unfold cleanStep
  by_cases h1 : e = []
  · simp [h1]
  · by_cases h2 : e = ['.']
    · simp [h2]
    · simp [nontriv, h1, h2] at h

theorem cleanStep_real (r : Bool) (S : List (List Char)) (e : List Char) (h : Real e) :
    cleanStep r S e = e :: S := by
  unfold cleanStep
  simp [h.1, h.2.1, h.2.2.1]

theorem foldl_cleanStep_filter (r : Bool) (es : List (List Char)) (T : List (List Char)) :
    es.foldl (cleanStep r) T = (es.filter nontriv).foldl (cleanStep r) T := by
  induction es generalizing T with
  | nil => rfl
  | cons e es ih =>
    cases h : nontriv e with
    | false => simp [List.filter_cons, h, cleanStep_skip r T e h, ih]
    | true => simp [List.filter_cons, h, ih]

theorem foldl_cleanStep_real (r : Bool) (es : List (List Char)) (T : List (List Char))
    (h : ∀ e ∈ es, Real e) : es.foldl (cleanStep r) T = es.reverse ++ T := by
  induction es generalizing T with
  | nil => rfl
  | cons e es ih =>
    simp only [List.foldl_cons, cleanStep_real r T e (h e (by simp))]
    rw [ih _ (fun x hx => h x (by simp [hx]))]
    simp

theorem cleanStep_dotdot_replicate (k : Nat) :
    cleanStep false (List.replicate k ['.', '.']) ['.', '.'] =
      List.replicate (k + 1) ['.', '.'] := by
  cases k with
  | zero => simp [cleanStep]
  | succ k => simp [cleanStep, List.replicate_succ]

theorem foldl_cleanStep_replicate (k j : Nat) :
    (List.replicate k ['.', '.']).foldl (cleanStep false) (List.replicate j ['.', '.']) =
      List.replicate (k + j) ['.', '.'] := by
  induction k generalizing j with
  | zero => simp
  | succ k ih =>
    rw [List.replicate_succ, List.foldl_cons, cleanStep_dotdot_replicate, ih]
    congr 1
    omega

theorem Normal_nil (r : Bool) : Normal r [] := ⟨[], 0, rfl, by simp, fun _ => rfl⟩

theorem Normal_cleanStep (r : Bool) (S : List (List Char)) (e : List Char) (hS : Normal r S)
    (he : '/' ∉ e) : Normal r (cleanStep r S e) := by
  by_cases h1 : e = []
  · rw [cleanStep_skip r S e (by simp [nontriv, h1])]; exact hS
  by_cases h2 : e = ['.']
  · rw [cleanStep_skip r S e (by simp [nontriv, h2])]; exact hS
  obtain ⟨R, k, rfl, hR, hk⟩ := hS
  by_cases h3 : e = ['.', '.']
  · subst h3
    cases R with
    | cons x R' =>
      have hx : Real x := hR x (by simp)
      refine ⟨R', k, ?_, fun y hy => hR y (by simp [hy]), hk⟩
      simp [cleanStep, hx.2.2.1]
    | nil =>
      cases r with
      | true =>
        have hk0 : k = 0 := hk rfl
        subst hk0
        exact ⟨[], 0, by simp [cleanStep], by simp, fun _ => rfl⟩
      | false =>
        refine ⟨[], k + 1, ?_, by simp, by simp⟩
        simpa using cleanStep_dotdot_replicate k
  · rw [cleanStep_real r _ e ⟨h1, h2, h3, he⟩]
    refine ⟨e :: R, k, by simp, ?_, hk⟩
    intro x hx
    simp only [List.mem_cons] at hx
    rcases hx with hx | hx
    · subst hx; exact ⟨h1, h2, h3, he⟩
    · exact hR x hx

theorem Normal_foldl (r : Bool) (es : List (List Char)) (T : List (List Char))
    (hT : Normal r T) (hes : ∀ e ∈ es, '/' ∉ e) : Normal r (es.foldl (cleanStep r) T) := by
  induction es generalizing T with
  | nil => exact hT
  | cons e es ih =>
    exact ih _ (Normal_cleanStep r T e hT (hes e (by simp))) (fun x hx => hes x (by simp [hx]))

theorem Normal_written (r : Bool) (S : List (List Char)) (hS : Normal r S) :
    ∀ e ∈ S, Written e := by
  obtain ⟨R, k, rfl, hR, _⟩ := hS
  intro e he
  simp only [List.mem_append, List.mem_replicate] at he
  rcases he with he | ⟨_, he⟩
  · exact ⟨(hR e he).1, (hR e he).2.1, (hR e he).2.2.2⟩
  · subst he
    exact ⟨by simp, by simp, by simp⟩

/-- Cleaning the elements that were written writes them again. -/
theorem foldl_cleanStep_Normal (r : Bool) (S : List (List Char)) (hS : Normal r S) :
    S.reverse.foldl (cleanStep r) [] = S := by
  obtain ⟨R, k, rfl, hR, hk⟩ := hS
  rw [List.reverse_append, List.foldl_append, List.reverse_replicate]
  have h1 : (List.replicate k ['.', '.']).foldl (cleanStep r) [] = List.replicate k ['.', '.'] := by
    cases r with
    | true => rw [hk rfl]; rfl
    | false => simpa using foldl_cleanStep_replicate k 0
  rw [h1, foldl_cleanStep_real r _ _ (fun e he => hR e (by simpa using he))]
  simp

theorem filter_nontriv_written (cs : List (List Char)) (h : ∀ e ∈ cs, Written e) :
    cs.filter nontriv = cs := by
  rw [List.filter_eq_self]
  intro e he
  simp [nontriv, (h e he).1, (h e he).2.1]

theorem render_ne_nil (r : Bool) (S : List (List Char)) : render r S ≠ [] := by
  unfold render
  cases r <;> simp only [if_true, Bool.false_eq_true, if_false] <;> split_ifs <;> simp_all

theorem render_elements (r : Bool) (S : List (List Char)) (h : ∀ e ∈ S, Written e) :
    (splitSlash (render r S)).filter nontriv = S.reverse := by
  have hw : ∀ e ∈ S.reverse, Written e := fun e he => h e (by simpa using he)
  have hne : ∀ e ∈ S.reverse, e ≠ [] := fun e he => (hw e he).1
  have hsl : ∀ e ∈ S.reverse, '/' ∉ e := fun e he => (hw e he).2.2
  unfold render
  by_cases hS : S.reverse = []
  · cases r <;> simp [hS, joinSlash, splitSlash, nontriv]
  · have hj : joinSlash S.reverse ≠ [] := fun hj => hS ((joinSlash_eq_nil _ hne).1 hj)
    cases r with
    | true =>
      simp only [if_true, List.cons_ne_nil, if_false]
      rw [show '/' :: joinSlash S.reverse = [] ++ '/' :: joinSlash S.reverse from rfl,
        splitSlash_append, splitSlash_joinSlash _ hS hsl]
      simp [splitSlash, List.filter_cons, nontriv, filter_nontriv_written _ hw]
    | false =>
      simp only [Bool.false_eq_true, if_false, hj]
      rw [splitSlash_joinSlash _ hS hsl, filter_nontriv_written _ hw]

theorem render_rooted (r : Bool) (S : List (List Char)) (h : ∀ e ∈ S, Written e) :
    decide ((render r S).head? = some '/') = r := by
  have hw : ∀ e ∈ S.reverse, Written e := fun e he => h e (by simpa using he)
  unfold render
  cases r with
  | true => simp
  | false =>
    simp only [Bool.false_eq_true, if_false]
    cases hS : S.reverse with
    | nil => simp [joinSlash]
    | cons e es =>
      have he : Written e := hw e (by simp [hS])
      have hj : joinSlash (e :: es) ≠ [] := fun hj => by
        have := (joinSlash_eq_nil (e :: es) (fun x hx => (hw x (by simp [hS, hx])).1)).1 hj
        simp at this
      simp only [hj, if_false, head?_joinSlash e es he.1, decide_eq_false_iff_not]
      intro h2
      cases e with
      | nil => exact he.1 rfl
      | cons c e =>
        simp only [List.head?_cons, Option.some.injEq] at h2
        exact he.2.2 (by simp [h2])

theorem Clean_of_ne_nil (p : List Char) (h : p ≠ []) :
    Clean p = render (decide (p.head? = some '/'))
      ((splitSlash p).foldl (cleanStep (decide (p.head? = some '/'))) []) := by
  simp [Clean, h]

/-- What `path.Clean` writes for a path that is not empty is in normal form. -/
theorem Normal_Clean (p : List Char) :
    Normal (decide (p.head? = some '/'))
      ((splitSlash p).foldl (cleanStep (decide (p.head? = some '/'))) []) :=
  Normal_foldl _ _ _ (Normal_nil _) (fun e he => noslash_of_mem_splitSlash p e he)

/-- Cleaning the text written for a normal form writes it again. -/
theorem Clean_render (r : Bool) (S : List (List Char)) (hS : Normal r S) :
    Clean (render r S) = render r S := by
  have hw := Normal_written r S hS
  rw [Clean_of_ne_nil _ (render_ne_nil r S), render_rooted r S hw, foldl_cleanStep_filter,
    render_elements r S hw, foldl_cleanStep_Normal r S hS]

theorem Clean_ne_nil (p : List Char) : Clean p ≠ [] := by
  by_cases h : p = []
  · simp [Clean, h]
  · rw [Clean_of_ne_nil p h]
    exact render_ne_nil _ _

/-- `path.Clean` is idempotent. -/
theorem Clean_Clean (p : List Char) : Clean (Clean p) = Clean p := by
  by_cases h : p = []
  · subst h
    decide
  · rw [Clean_of_ne_nil p h]
    exact Clean_render _ _ (Normal_Clean p)

theorem elements_nil : elements [] = [] := by decide

theorem NoDotDot_nil : NoDotDot [] := by
  unfold NoDotDot
  decide

theorem elements_real (p : List Char) (h : NoDotDot p) : ∀ e ∈ elements p, Real e := by
  intro e he
  simp only [elements, List.mem_filter, nontriv, Bool.and_eq_true, decide_eq_true_eq] at he
  refine ⟨he.2.1, he.2.2, ?_, noslash_of_mem_splitSlash p e he.1⟩
  intro h2
  exact h (h2 ▸ he.1)

theorem Clean_noDotDot (p : List Char) (hp : p ≠ []) (h : NoDotDot p) :
    Clean p = render (isRooted p) (elements p).reverse := by
  rw [Clean_of_ne_nil p hp, foldl_cleanStep_filter,
    show List.filter nontriv (splitSlash p) = elements p from rfl,
    foldl_cleanStep_real _ _ _ (elements_real p h)]
  simp [isRooted]

theorem real_written (cs : List (List Char)) (h : ∀ e ∈ cs, Real e) :
    ∀ e ∈ cs.reverse, Written e :=
  fun e he => ⟨(h e (by simpa using he)).1, (h e (by simpa using he)).2.1,
    (h e (by simpa using he)).2.2.2⟩

theorem isRooted_render (r : Bool) (cs : List (List Char)) (h : ∀ e ∈ cs, Real e) :
    isRooted (render r cs.reverse) = r :=
  render_rooted r cs.reverse (real_written cs h)

theorem elements_render (r : Bool) (cs : List (List Char)) (h : ∀ e ∈ cs, Real e) :
    elements (render r cs.reverse) = cs := by
  unfold elements
  rw [render_elements r cs.reverse (real_written cs h), List.reverse_reverse]

theorem NoDotDot_render (r : Bool) (cs : List (List Char)) (h : ∀ e ∈ cs, Real e) :
    NoDotDot (render r cs.reverse) := by
  intro hd
  have h1 : ['.', '.'] ∈ elements (render r cs.reverse) := by
    simp only [elements, List.mem_filter]
    exact ⟨hd, by decide⟩
  rw [elements_render r cs h] at h1
  exact (h _ h1).2.2.1 rfl

theorem Join_nil_nil : Join [[], []] = [] := by decide

theorem Join_nil_left (b : List Char) (hb : b ≠ []) : Join [[], b] = Clean b := by
  simp [Join, List.dropWhile, hb, joinSlash]

theorem Join_cons (a b : List Char) (ha : a ≠ []) : Join [a, b] = Clean (a ++ '/' :: b) := by
  simp [Join, List.dropWhile, ha, joinSlash]

theorem Join_single (a : List Char) (ha : a ≠ []) : Join [a] = Clean a := by
  simp [Join, List.dropWhile, ha, joinSlash]

theorem isRooted_append (a b : List Char) (ha : a ≠ []) : isRooted (a ++ b) = isRooted a := by
  cases a with
  | nil => exact absurd rfl ha
  | cons c a => rfl

theorem elements_append (a b : List Char) :
    elements (a ++ '/' :: b) = elements a ++ elements b := by
  simp [elements, splitSlash_append]

theorem NoDotDot_append (a b : List Char) (ha : NoDotDot a) (hb : NoDotDot b) :
    NoDotDot (a ++ '/' :: b) := by
  unfold NoDotDot at *
  rw [splitSlash_append]
  simp [ha, hb]

/-- `path.Join` of two paths that have no `..` element: the elements of the two,
after the root of the first path that is not empty. -/
theorem Join_two (a b : List Char) (ha : NoDotDot a) (hb : NoDotDot b)
    (hab : ¬ (a = [] ∧ b = [])) :
    Join [a, b] = render (if a = [] then isRooted b else isRooted a)
      (elements a ++ elements b).reverse := by
  by_cases h : a = []
  · subst h
    have hb2 : b ≠ [] := fun h2 => hab ⟨rfl, h2⟩
    rw [Join_nil_left b hb2, Clean_noDotDot b hb2 hb]
    simp [elements_nil]
  · rw [Join_cons a b h, Clean_noDotDot _ (by simp [h]) (NoDotDot_append a b ha hb),
      isRooted_append a _ h, elements_append]
    simp [h]

theorem real_append (a b : List Char) (ha : NoDotDot a) (hb : NoDotDot b) :
    ∀ e ∈ elements a ++ elements b, Real e := by
  intro e he
  rcases List.mem_append.1 he with h | h
  · exact elements_real a ha e h
  · exact elements_real b hb e h

/-- `path.Join` is associative on paths that have no `..` element. -/
theorem Join_assoc (a b c : List Char) (ha : NoDotDot a) (hb : NoDotDot b) (hc : NoDotDot c) :
    Join [Join [a, b], c] = Join [a, Join [b, c]] := by
  by_cases hab : a = [] ∧ b = []
  · obtain ⟨rfl, rfl⟩ := hab
    rw [Join_nil_nil]
    by_cases h : c = []
    · subst h
      rw [Join_nil_nil, Join_nil_nil]
    · rw [Join_nil_left c h, Join_nil_left _ (Clean_ne_nil c), Clean_Clean]
  · have hj := Join_two a b ha hb hab
    have hr := real_append a b ha hb
    have hjne : Join [a, b] ≠ [] := by rw [hj]; exact render_ne_nil _ _
    have hjd : NoDotDot (Join [a, b]) := by rw [hj]; exact NoDotDot_render _ _ hr
    rw [Join_two (Join [a, b]) c hjd hc (fun h => hjne h.1)]
    simp only [hjne, if_false]
    rw [hj, isRooted_render _ _ hr, elements_render _ _ hr]
    by_cases hbc : b = [] ∧ c = []
    · obtain ⟨rfl, rfl⟩ := hbc
      have ha2 : a ≠ [] := fun h => hab ⟨h, rfl⟩
      rw [Join_nil_nil, Join_two a [] ha NoDotDot_nil (fun h => ha2 h.1)]
      simp [ha2, elements_nil]
    · have hk := Join_two b c hb hc hbc
      have hr2 := real_append b c hb hc
      have hkne : Join [b, c] ≠ [] := by rw [hk]; exact render_ne_nil _ _
      have hkd : NoDotDot (Join [b, c]) := by rw [hk]; exact NoDotDot_render _ _ hr2
      rw [Join_two a (Join [b, c]) ha hkd (fun h => hkne h.2)]
      rw [hk, isRooted_render _ _ hr2, elements_render _ _ hr2, List.append_assoc]
      by_cases h : a = []
      · have hb2 : b ≠ [] := fun h2 => hab ⟨h, h2⟩
        simp [h, hb2]
      · simp [h]

/-- Joining the result of `path.Join` with nothing gives it back. -/
theorem Join_Join_single (a b : List Char) : Join [Join [a, b]] = Join [a, b] := by
  by_cases h : Join [a, b] = []
  · rw [h]; decide
  · rw [Join_single _ h]
    by_cases ha : a = []
    · subst ha
      by_cases hb : b = []
      · subst hb; exact absurd Join_nil_nil h
      · rw [Join_nil_left b hb, Clean_Clean]
    · rw [Join_cons a b ha, Clean_Clean]

theorem NoDotDot_of_hasDotDot (s : String) (h : hasDotDot s = false) : NoDotDot s.data := by
  unfold NoDotDot
  intro hm
  have : hasDotDot s = true := by
    unfold hasDotDot
    simpa using hm
  rw [h] at this
  cases this

/-- C10, refuted as stated: with `a = x`, `b = /..` and `c = b` the two ways of
joining give `b` and `x/b`. -/
theorem pathJoin_not_associative :
    pathJoin [pathJoin ["x", "/.."], "b"] = "b" ∧
    pathJoin ["x", pathJoin ["/..", "b"]] = "x/b" ∧
    pathJoin [pathJoin ["x", "/.."], "b"] ≠ pathJoin ["x", pathJoin ["/..", "b"]] := by
  decide

/-- C10, amended: for all segments `a`, `b` and `c` none of whose path name elements
is `..`, `join(join(a, b), c) = join(a, join(b, c))`; and for all segments `x` and
`y`, joining `join(x, y)` with nothing gives `join(x, y)`. -/
theorem pathJoin_assoc_without_dotdot (a b c : String) (ha : hasDotDot a = false)
    (hb : hasDotDot b = false) (hc : hasDotDot c = false) :
    pathJoin [pathJoin [a, b], c] = pathJoin [a, pathJoin [b, c]] ∧
    ∀ x y : String, pathJoin [pathJoin [x, y]] = pathJoin [x, y] := by
  constructor
  · simp only [pathJoin, List.map_cons, List.map_nil]
    rw [Join_assoc a.data b.data c.data (NoDotDot_of_hasDotDot a ha)
      (NoDotDot_of_hasDotDot b hb) (NoDotDot_of_hasDotDot c hc)]
  · intro x y
    simp only [pathJoin, List.map_cons, List.map_nil]
    rw [Join_Join_single]

/-- C10 amended, at the base path `/v2.1` and two segments with doubled, leading and
trailing separators. -/
theorem pathJoin_assoc_without_dotdot_witness :
    pathJoin [pathJoin ["/v2.1", "app_instances//"], "/user_data/"] =
      pathJoin ["/v2.1", pathJoin ["app_instances//", "/user_data/"]] ∧
    ∀ x y : String, pathJoin [pathJoin [x, y]] = pathJoin [x, y] :=
  pathJoin_assoc_without_dotdot "/v2.1" "app_instances//" "/user_data/" (by decide) (by decide)
    (by decide)

/-! ## User data paths and the channels of `ForceClean` -/

theorem UserDatas.Update_calls (conn : ConnCall → ConnReply)
    (FillStruct : JsonMap → UserData → UserData × Option GoErr)
    (e : UserDatas) (ud : UserDataUpdateRequest) :
    (UserDatas.Update conn FillStruct e ud).calls =
      [{ Method := "PUT", Path := pathJoin ["app_instances", ud.AppInstanceId, e.Path],
         JSON := UserDataJSON.update ud }] := by
  unfold UserDatas.Update
  simp only
  split_ifs
  · rfl
  · rfl
  · split <;> rfl

theorem UserDatas.Get_calls (conn : ConnCall → ConnReply)
    (FillStruct : JsonMap → UserData → UserData × Option GoErr)
    (e : UserDatas) (ud : UserDataGetRequest) :
    (UserDatas.Get conn FillStruct e ud).calls =
      [{ Method := "GET", Path := pathJoin ["app_instances", e.Path, ud.AppInstanceId],
         JSON := UserDataJSON.get ud }] := by
  unfold UserDatas.Get
  simp only
  split_ifs
  · rfl
  · split <;> rfl

/-- C11: for the collection `newUserDatas ""` and the app instance `ai1`, whatever
the connection answers, `Update` sends its one request to the path
`app_instances/ai1/user_data` and `Get` sends its one request to the path
`app_instances/user_data/ai1`; the two paths differ. -/
theorem Update_and_Get_paths_differ (conn : ConnCall → ConnReply)
    (FillStruct : JsonMap → UserData → UserData × Option GoErr) :
    (newUserDatas "").Path = "user_data" ∧
    (UserDatas.Update conn FillStruct (newUserDatas "") { AppInstanceId := "ai1" }).calls.map
      ConnCall.Path = ["app_instances/ai1/user_data"] ∧
    (UserDatas.Get conn FillStruct (newUserDatas "") { AppInstanceId := "ai1" }).calls.map
      ConnCall.Path = ["app_instances/user_data/ai1"] ∧
    (UserDatas.Update conn FillStruct (newUserDatas "") { AppInstanceId := "ai1" }).calls.map
      ConnCall.Path ≠
    (UserDatas.Get conn FillStruct (newUserDatas "") { AppInstanceId := "ai1" }).calls.map
      ConnCall.Path := by
  rw [UserDatas.Update_calls, UserDatas.Get_calls]
  decide

theorem makeChannels_spec {ε : Type} (st : CleanState ε) (n : Nat) :
    (makeChannels st n).dones = st.dones ++ List.range' st.nextChan n ∧
    (makeChannels st n).nextChan = st.nextChan + n ∧
    (makeChannels st n).chi = st.chi ∧ (makeChannels st n).tasks = st.tasks ∧
    (makeChannels st n).received = st.received := by
  induction n generalizing st with
  | zero => simp [makeChannels]
  | succ n ih =>
    obtain ⟨h1, h2, h3, h4, h5⟩ := ih
      { st with dones := st.dones ++ [st.nextChan], nextChan := st.nextChan + 1 }
    refine ⟨?_, ?_, h3, h4, h5⟩
    · rw [makeChannels, h1]
      simp [List.range'_succ]
    · rw [makeChannels, h2]
      simp
      omega

theorem startTasks_spec {ε : Type} (items : List ε) (st : CleanState ε) (A B : List Nat)
    (hd : st.dones = A ++ B) (hA : A.length = st.chi) (hB : B.length = items.length) :
    ∃ st1, startTasks st items = some st1 ∧ st1.dones = st.dones ∧
      st1.nextChan = st.nextChan ∧ st1.chi = st.chi + items.length ∧
      st1.tasks = st.tasks ++ B.zip items ∧ st1.received = st.received := by
  induction items generalizing st A B with
  | nil => exact ⟨st, rfl, rfl, rfl, by simp, by simp, rfl⟩
  | cons item rest ih =>
    cases B with
    | nil => simp at hB
    | cons b B =>
      have hget : st.dones[st.chi]? = some b := by
        rw [hd, ← hA, List.getElem?_append_right (le_refl _)]
        simp
      obtain ⟨st1, h1, h2, h3, h4, h5, h6⟩ :=
        ih { st with tasks := st.tasks ++ [(b, item)], chi := st.chi + 1 } (A ++ [b]) B
          (by simp [hd]) (by simp [hA]) (by simpa using hB)
      refine ⟨st1, ?_, h2, h3, ?_, ?_, h6⟩
      · simp only [startTasks, hget]
        exact h1
      · rw [h4]
        simp
        omega
      · rw [h5]
        simp

theorem CleanInv_init {ε : Type} : CleanInv ({} : CleanState ε) := by
  simp [CleanInv]

theorem cleanEndpoint_spec {ε : Type} (listEp : String → List ε × Option GoErr)
    (st : CleanState ε) (epStr : String) (h : CleanInv st) :
    ∃ st1, cleanEndpoint listEp st epStr = some st1 ∧ CleanInv st1 ∧
      st1.tasks.map Prod.snd = st.tasks.map Prod.snd ++ (listEp epStr).1 := by
  obtain ⟨hd, hc, ht, hr⟩ := h
  obtain ⟨m1, m2, m3, m4, m5⟩ := makeChannels_spec st (listEp epStr).1.length
  obtain ⟨st1, s1, s2, s3, s4, s5, s6⟩ := startTasks_spec (listEp epStr).1
    (makeChannels st (listEp epStr).1.length) st.dones
    (List.range' st.nextChan (listEp epStr).1.length) m1 (by rw [m3, hc]) (by simp)
  refine ⟨st1, s1, ⟨?_, ?_, ?_, ?_⟩, ?_⟩
  · rw [s2, s3, m1, m2, hd, List.range_eq_range', List.range_eq_range']
    have := List.range'_append_1 0 st.nextChan (listEp epStr).1.length
    simp only [Nat.zero_add] at this
    rw [this, Nat.add_comm]
  · rw [s4, s2, m3, m1, hc]
    simp
  · rw [s5, s2, m4, m1, List.map_append, ht, List.map_fst_zip _ _ (by simp)]
  · rw [s6, m5, hr]
  · rw [s5, m4, List.map_append, List.map_snd_zip _ _ (by simp)]

theorem cleanEndpoints_spec {ε : Type} (listEp : String → List ε × Option GoErr)
    (eps : List String) (st : CleanState ε) (h : CleanInv st) :
    ∃ st1, cleanEndpoints listEp st eps = some st1 ∧ CleanInv st1 ∧
      st1.tasks.map Prod.snd =
        st.tasks.map Prod.snd ++ (eps.map (fun ep => (listEp ep).1)).flatten := by
  induction eps generalizing st with
  | nil => exact ⟨st, rfl, h, by simp⟩
  | cons ep eps ih =>
    obtain ⟨st1, h1, h2, h3⟩ := cleanEndpoint_spec listEp st ep h
    obtain ⟨st2, k1, k2, k3⟩ := ih st1 h2
    refine ⟨st2, ?_, k2, ?_⟩
    · simp only [cleanEndpoints, h1]
      exact k1
    · rw [k3, h3]
      simp

theorem waitAll_spec {ε : Type} (st : CleanState ε) :
    (waitAll st).received = st.received ++ st.dones ∧ (waitAll st).dones = st.dones ∧
      (waitAll st).tasks = st.tasks := by
  unfold waitAll
  suffices h : ∀ (l : List Nat) (s : CleanState ε),
      (l.foldl (fun s ch => { s with received := s.received ++ [ch] }) s).received =
        s.received ++ l ∧
      (l.foldl (fun s ch => { s with received := s.received ++ [ch] }) s).dones = s.dones ∧
      (l.foldl (fun s ch => { s with received := s.received ++ [ch] }) s).tasks = s.tasks from
    h st.dones st
  intro l
  induction l with
  | nil => intro s; simp
  | cons a l ih =>
    intro s
    obtain ⟨h1, h2, h3⟩ := ih { s with received := s.received ++ [a] }
    exact ⟨by rw [List.foldl_cons, h1]; simp, by rw [List.foldl_cons, h2],
      by rw [List.foldl_cons, h3]⟩

/-- C12: whatever the four `List` calls hand back (their errors are dropped),
`ForceClean` does not index `dones` out of range; it makes as many channels as
entities are listed; the tasks it starts are one per listed entity, in the order
listed, and the channel of the i-th task is the i-th channel, so no two tasks share a
channel; and the last loop issues one receive on each of these channels, in
order. -/
theorem ForceClean_channels {ε : Type} (listEp : String → List ε × Option GoErr) :
    ∃ st, ForceClean listEp = some st ∧
      st.dones.length = (listed listEp).length ∧
      st.tasks.map Prod.snd = listed listEp ∧
      st.tasks.map Prod.fst = st.dones ∧
      st.dones.Nodup ∧
      st.received = st.dones := by
  obtain ⟨st, h1, ⟨hd, hc, ht, hr⟩, h3⟩ := cleanEndpoints_spec listEp
    ["app_instances", "app_templates", "initiators", "initiator_groups"] {} CleanInv_init
  obtain ⟨w1, w2, w3⟩ := waitAll_spec st
  have hs : st.tasks.map Prod.snd = listed listEp := by
    rw [h3]
    simp [listed]
  refine ⟨waitAll st, ?_, ?_, ?_, ?_, ?_, ?_⟩
  · simp only [ForceClean, h1]
  · rw [w2, ← ht, List.length_map, ← hs, List.length_map]
  · rw [w3, hs]
  · rw [w3, w2, ht]
  · rw [w2, hd]
    exact List.nodup_range _
  · rw [w1, w2, hr]
    simp

end dsdk
